import Mathlib

/-!
# Pasfini — data-durability and archive interchange layer, shallow embedding

Shallow embedding of the persistent entity store (`src/db.ts`), the photo
processor (`src/photos.ts`) and the ZIP archive codec (`src/zip.ts`) of the
Pasfini issue tracker, together with proofs of its specified properties.

Modelling conventions:
* IndexedDB object stores (`issues`, `photos`, keyed on `id`) are association
  lists with put-or-replace semantics; `getAll` enumeration order is the list
  order of the model.
* `localStorage` items `rooms` / `assignees` are `Option (Option (List _))`:
  `none` = item absent, `some none` = present but not parseable as JSON,
  `some (some l)` = present and parsing to the list `l`.
* Binary blobs are byte lists; equality of blobs is byte identity.
* An ISO-8601 date string is modelled by the millisecond value it denotes:
  `new Date(ms).toISOString()` followed by `new Date(s).getTime()` is the
  identity on the millisecond epoch value, which is all the codec relies on.
* `crypto.randomUUID()` is modelled by a fresh-name counter threaded through
  the store (`uuidSeed`).
* `localeCompare` is modelled as code-point comparison (Lean's `String` order);
  the strings compared by the code under verification (room letters, the
  U+FFFF sentinel, room names) are ordered the same way by both.
* Floating point arithmetic in the photo resizer is modelled over `ℚ`;
  `Math.round` on the nonnegative values that occur is `⌊x + 1/2⌋`.
-/

namespace Pasfini

/-- Bytes of a binary payload (a `Blob`). -/
abbrev Blob := List Nat

/-- An ISO-8601 date string, represented by the ms-epoch value it denotes. -/
structure IsoString where
  ms : Int
deriving DecidableEq, Repr

/-- `src/types.ts`: `Room { slug, name, letter? }`. -/
structure Room where
  slug : String
  name : String
  letter : Option String := none
deriving DecidableEq, Repr

/-- `src/types.ts`: `Assignee { slug, name }`. -/
structure Assignee where
  slug : String
  name : String
deriving DecidableEq, Repr

/-- `src/types.ts`: `IssueType = 'reserve' | 'todo'`. -/
inductive IssueType where
  | reserve
  | todo
deriving DecidableEq, Repr

/-- `src/types.ts`: issue status `'open' | 'done'` (`opened` models `'open'`). -/
inductive Status where
  | opened
  | done
deriving DecidableEq, Repr

/-- `src/types.ts`: `Issue`. Optional TS fields are `Option`s. -/
structure Issue where
  id : String
  code : Option String := none
  roomSlug : String
  assigneeSlug : Option String := none
  type : Option IssueType := none
  title : String
  description : String
  status : Status
  createdAt : Int
  updatedAt : Int
  photos : List String
deriving DecidableEq, Repr

/-- `src/types.ts`: `PhotoRef`. -/
structure PhotoRef where
  id : String
  issueId : String
  mimeType : String
  width : Nat
  height : Nat
  createdAt : Int
  blob : Blob
  thumbnailBlob : Blob
deriving DecidableEq, Repr

/-- `src/types.ts`: `DEFAULT_ROOMS` (current version, with sort letters). -/
def DEFAULT_ROOMS : List Room := [
  { slug := "entree", name := "Entrée", letter := some "Z" },
  { slug := "salle-de-bain-jaune", name := "Salle de bain Jaune", letter := some "Y" },
  { slug := "wc-etage", name := "WC Etage", letter := some "X" },
  { slug := "couloir", name := "Couloir", letter := some "W" },
  { slug := "suite-parentale", name := "Suite parentale", letter := some "V" },
  { slug := "dressing-suite-parentale", name := "Dressing suite parentale", letter := some "U" },
  { slug := "salle-deau-suite-parentale", name := "Salle d\x27eau suite parentale", letter := some "T" },
  { slug := "combles", name := "Combles", letter := some "S" },
  { slug := "salle-deau-combles", name := "Salle d\x27eau combles", letter := some "R" },
  { slug := "salon", name := "Salon", letter := some "Q" },
  { slug := "salle-a-manger", name := "Salle à manger", letter := some "P" },
  { slug := "cuisine", name := "Cuisine", letter := some "O" },
  { slug := "buanderie", name := "Buanderie", letter := some "N" },
  { slug := "garage", name := "Garage", letter := some "M" },
  { slug := "exterieur", name := "Extérieur", letter := some "L" },
  { slug := "wc-rdc", name := "WC RDC", letter := some "K" }]

/-- The two storage tiers of the app: the IndexedDB object stores `issues`
and `photos` (keyed lists), the `localStorage` config items, and the
fresh-uuid supply. -/
structure Store where
  issues : List Issue
  photos : List PhotoRef
  roomsKV : Option (Option (List Room))
  assigneesKV : Option (Option (List Assignee))
  lastRoomSlug : Option String
  uuidSeed : Nat
deriving DecidableEq, Repr

/-- An empty store (fresh browser profile). -/
def Store.empty : Store :=
  { issues := [], photos := [], roomsKV := none, assigneesKV := none,
    lastRoomSlug := none, uuidSeed := 0 }

/-- Name comparison used by `getRooms`' `localeCompare(…, 'fr')` sort,
modelled as code-point (lexicographic character) order on the names. -/
def roomNameLe (a b : Room) : Prop := a.name.data ≤ b.name.data

instance : DecidableRel roomNameLe :=
  fun a b => inferInstanceAs (Decidable (a.name.data ≤ b.name.data))

/-- `db.ts` `getRooms()`: absent or unparseable `rooms` item re-seeds the
defaults; a parsed list is returned sorted by display name. Returns the
room list together with the (possibly re-seeded) store. -/
def getRooms (st : Store) : List Room × Store :=
  match st.roomsKV with
  | none => (DEFAULT_ROOMS, { st with roomsKV := some (some DEFAULT_ROOMS) })
  | some none => (DEFAULT_ROOMS, { st with roomsKV := some (some DEFAULT_ROOMS) })
  | some (some rs) => (List.insertionSort roomNameLe rs, st)

/-- `db.ts` `getAllIssues()`. -/
def getAllIssues (st : Store) : List Issue := st.issues

/-- `db.ts` `getIssue(id)`. -/
def getIssue (st : Store) (id : String) : Option Issue :=
  st.issues.find? (fun i => decide (i.id = id))

/-- IndexedDB `store.put(x)` on a store keyed by `key`: replace the record
with the same key, else append. -/
def putByKey (key : α → String) (l : List α) (x : α) : List α :=
  if l.any (fun y => decide (key y = key x)) then
    l.map (fun y => if key y = key x then x else y)
  else l ++ [x]

/-- `db.ts` `saveIssue(issue)`: put-or-replace keyed by `id`. -/
def saveIssue (st : Store) (issue : Issue) : Store :=
  { st with issues := putByKey Issue.id st.issues issue }

/-- `db.ts` `savePhoto(photo)`: put-or-replace keyed by `id`. -/
def savePhoto (st : Store) (photo : PhotoRef) : Store :=
  { st with photos := putByKey PhotoRef.id st.photos photo }

/-- `db.ts` `getPhoto(id)`. -/
def getPhoto (st : Store) (id : String) : Option PhotoRef :=
  st.photos.find? (fun p => decide (p.id = id))

/-- `db.ts` `getPhotosByIssue(issueId)`: all photos whose `issueId` index
key equals `issueId`. -/
def getPhotosByIssue (st : Store) (issueId : String) : List PhotoRef :=
  st.photos.filter (fun p => decide (p.issueId = issueId))

/-- `db.ts` `deletePhoto(id)`. -/
def deletePhoto (st : Store) (id : String) : Store :=
  { st with photos := st.photos.filter (fun p => decide (p.id ≠ id)) }

/-- `db.ts` `deleteIssue(id)`: first collect all photos whose `issueId`
equals `id` via the index, then — in one read-write transaction over both
object stores — delete the issue record and each collected photo record. -/
def deleteIssue (st : Store) (id : String) : Store :=
  let doomed := (getPhotosByIssue st id).map PhotoRef.id
  { st with
    issues := st.issues.filter (fun i => decide (i.id ≠ id)),
    photos := st.photos.filter (fun p => decide (p.id ∉ doomed)) }

/-- Modelled from the spec: `clearAllData()` is called by replace-mode import
but its definition is not part of the provided sources; §4.2 of the spec
states it "erases every issue, photo, and config entry". -/
def clearAllData (st : Store) : Store :=
  { issues := [], photos := [], roomsKV := none, assigneesKV := none,
    lastRoomSlug := none, uuidSeed := st.uuidSeed }

/-! ## Photo processing (`src/photos.ts`) -/

def MAX_WIDTH : Nat := 1280
def MAX_HEIGHT : Nat := 1280
def THUMB_SIZE : Nat := 200

/-- JS `Math.round` on the nonnegative reals that occur here: `⌊x + 1/2⌋`. -/
def jsRound (q : ℚ) : Int := ⌊q + 1/2⌋

/-- `photos.ts` `resizeToCanvas(img, maxW, maxH)`: if either natural
dimension exceeds its bound, scale both by `min(maxW/w, maxH/h)` and round;
otherwise keep the dimensions. Faithful for positive input dimensions
(division by zero — JS `Infinity` — is outside the modelled range). -/
def resizeToCanvas (w h maxW maxH : Nat) : Nat × Nat :=
  if w > maxW ∨ h > maxH then
    let scale : ℚ := min ((maxW : ℚ) / w) ((maxH : ℚ) / h)
    ((jsRound (w * scale)).toNat, (jsRound (h * scale)).toNat)
  else (w, h)

/-- The dimension/metadata part of `photos.ts` `processPhoto(file)`: the full
payload is resized to the `MAX_WIDTH`/`MAX_HEIGHT` box, the thumbnail to the
`THUMB_SIZE` box, and the reported width/height are those of the resized
full canvas; output MIME type is fixed. -/
structure ProcessedPhoto where
  width : Nat
  height : Nat
  thumbWidth : Nat
  thumbHeight : Nat
  mimeType : String
deriving DecidableEq, Repr

def processPhoto (w h : Nat) : ProcessedPhoto :=
  let full := resizeToCanvas w h MAX_WIDTH MAX_HEIGHT
  let thumb := resizeToCanvas w h THUMB_SIZE THUMB_SIZE
  { width := full.1, height := full.2, thumbWidth := thumb.1,
    thumbHeight := thumb.2, mimeType := "image/jpeg" }

/-! ## String helpers shared by the codec

`String.prototype.split(sep)` for a one-character separator, JS `||` on
strings, decimal rendering of a JS number interpolated into a template
literal, and JS `Map` lookup (later entries win). -/

/-- JS `str.split(c)` on the character list of the string: split at every
occurrence of `c`, keeping empty segments; the result is always nonempty. -/
def splitOnChar (sep : Char) : List Char → List (List Char)
  | [] => [[]]
  | c :: cs =>
    match splitOnChar sep cs with
    | [] => [[]]
    | s :: rest => if c = sep then [] :: s :: rest else (c :: s) :: rest

/-- JS `a || b` on strings: `b` if `a` is empty (falsy), else `a`. -/
def jsOr (a b : String) : String := if a = "" then b else a

/-- JS `Map` built from a pair list, looked up by key: later pairs overwrite
earlier ones (the lookup prefers the rightmost matching pair). -/
def mapGet : List (String × β) → String → Option β
  | [], _ => none
  | p :: rest, k =>
    match mapGet rest k with
    | some v => some v
    | none => if p.1 = k then some p.2 else none

/-- Little-endian decimal digit list, with enough fuel to terminate. -/
def decimalDigitsAux : Nat → Nat → List Nat
  | _, 0 => []
  | 0, _ + 1 => []
  | fuel + 1, n + 1 => (n + 1) % 10 :: decimalDigitsAux fuel ((n + 1) / 10)

/-- Little-endian decimal digit list of `n` (empty for `0`). -/
def decimalDigits (n : Nat) : List Nat := decimalDigitsAux n n

/-- Decimal digit as a character. -/
def digitToChar (d : Nat) : Char := Char.ofNat (48 + d)

/-- Decimal rendering of a JS number interpolated in a template literal. -/
def natDecimal (n : Nat) : String :=
  if n = 0 then "0" else String.mk ((decimalDigits n).reverse.map digitToChar)

/-- JS `str.toLowerCase()`, modelled characterwise (faithful on the ASCII
strings compared here). -/
def strToLower (s : String) : String := String.mk (s.data.map Char.toLower)

/-- `photoPath.split('.').pop()?.toLowerCase()` — the lowercased text after
the last dot (the whole string if it has no dot). -/
def pathExt (p : String) : String :=
  strToLower (String.mk ((splitOnChar '.' p.data).getLastD []))

/-! ## Archive format (`src/zip.ts`) -/

/-- `zip.ts`: safe image extension allow-list, shared by export and import. -/
def SAFE_EXTENSIONS : List String := ["jpg", "jpeg", "png", "gif", "webp"]

/-- `zip.ts`: fallback extension. -/
def DEFAULT_EXTENSION : String := "jpg"

/-- Export-side extension derivation from a photo's MIME type:
`photo.mimeType || 'image/jpeg'`, then the lowercased subtype if it is in
the allow-list, else the default extension. -/
def extForMime (m : String) : String :=
  let mimeType := jsOr m "image/jpeg"
  if mimeType.data.contains '/' then
    let e := strToLower (String.mk ((splitOnChar '/' mimeType.data).getD 1 []))
    if SAFE_EXTENSIONS.contains e then e else DEFAULT_EXTENSION
  else DEFAULT_EXTENSION

/-- The candidate filenames tried by the export collision loop:
`{base}.{ext}`, then `{base}-1.{ext}`, `{base}-2.{ext}`, … -/
def candName (base ext : String) : Nat → String
  | 0 => base ++ "." ++ ext
  | k + 1 => base ++ "-" ++ natDecimal (k + 1) ++ "." ++ ext

/-- Fuelled unfolding of the `while (usedFilenames.has(filename))` loop. -/
def freeNameAux (used : List String) (base ext : String) : Nat → Nat → String
  | i, 0 => candName base ext i
  | i, fuel + 1 =>
    let c := candName base ext i
    if c ∈ used then freeNameAux used base ext (i + 1) fuel else c

/-- The filename chosen by the export collision loop: the first candidate
not yet in `used` (fuel `used.length + 1` always suffices, see
`freeName_not_mem`). -/
def freeName (used : List String) (base ext : String) : String :=
  freeNameAux used base ext 0 (used.length + 1)

/-- `zip.file(path)`: look a file up by its full path inside the archive. -/
def zipLookup (files : List (String × Blob)) (path : String) : Option Blob :=
  (files.find? (fun f => decide (f.1 = path))).map Prod.snd

/-- A photo object of the manifest (`PhotoDetail` in the spec): produced by
export, and one of the two photo encodings accepted by import. An empty
string models an absent/falsy field. -/
structure PhotoDetail where
  path : String := ""
  id : String := ""
  mimeType : String := ""
  width : Nat := 0
  height : Nat := 0
  thumbnailPath : String := ""
  createdAt : Option IsoString := none
deriving DecidableEq, Repr

/-- A photo entry of a manifest issue: legacy bare path string, or the
current structured object. -/
inductive PhotoEntry where
  | legacy (path : String)
  | modern (d : PhotoDetail)
deriving DecidableEq, Repr

/-- An issue entry of the manifest, as import sees it: every field may be
absent (empty string / `none` / `0` model falsy or missing values). -/
structure IssueEntry where
  id : String := ""
  code : String := ""
  roomSlug : String := ""
  roomName : String := ""
  assigneeSlug : String := ""
  type : String := ""
  title : String := ""
  description : String := ""
  status : String := ""
  createdAt : Option IsoString := none
  updatedAt : Option IsoString := none
  photoCount : Nat := 0
  photos : Option (List PhotoEntry) := none
deriving DecidableEq, Repr

/-- An element of the manifest's `rooms` array: either not an object of the
right shape (`invalid`) or an object with string `slug`/`name` (possibly
empty, filtered by the length checks) and an optional `letter`. -/
inductive RoomEntry where
  | invalid
  | obj (slug name : String) (letter : Option String)
deriving DecidableEq, Repr

/-- The import-side room validation filter (string fields of length > 0). -/
def RoomEntry.valid? : RoomEntry → Option Room
  | .invalid => none
  | .obj s n l => if s ≠ "" ∧ n ≠ "" then some ⟨s, n, l⟩ else none

/-- An element of the manifest's `assignees` array. -/
inductive AssigneeEntry where
  | invalid
  | obj (slug name : String)
deriving DecidableEq, Repr

/-- The import-side assignee validation filter. -/
def AssigneeEntry.valid? : AssigneeEntry → Option Assignee
  | .invalid => none
  | .obj s n => if s ≠ "" ∧ n ≠ "" then some ⟨s, n⟩ else none

/-- A top-level manifest field that must be an array: it can be absent (or
falsy), present but not an array, or an array of entries. -/
inductive JField (α : Type) where
  | missing
  | notArray
  | arr (l : List α)
deriving DecidableEq, Repr

/-- The parsed `report.json` manifest. -/
structure Manifest where
  exportDate : Option IsoString := none
  totalIssues : Nat := 0
  openIssues : Nat := 0
  doneIssues : Nat := 0
  rooms : JField RoomEntry := .missing
  assignees : JField AssigneeEntry := .missing
  issues : JField IssueEntry := .missing
deriving DecidableEq, Repr

/-- A ZIP archive: the parsed `report.json` if present, and the binary
entries (the `img/` assets), keyed by their full path inside the zip. -/
structure Archive where
  manifest : Option Manifest
  files : List (String × Blob)
deriving DecidableEq, Repr

/-! ## Export (`zip.ts` `generateZipBlob`) -/

/-- The `'￿'` sentinel used as sort key for rooms without a letter. -/
def SENTINEL : String := "￿"

/-- The sort key of a room slug: `roomLetterMap.get(slug) || '￿'` where
the map carries `r.letter || '￿'` per room. -/
def letterKey (rooms : List Room) (slug : String) : String :=
  let m := rooms.map (fun r => (r.slug, jsOr (r.letter.getD "") SENTINEL))
  jsOr ((mapGet m slug).getD "") SENTINEL

/-- The room ordering of the export: compare the letter keys (localeCompare
modelled as code-point order). -/
def slugLe (rooms : List Room) (a b : String) : Prop :=
  (letterKey rooms a).data ≤ (letterKey rooms b).data

instance : DecidableRel (slugLe rooms) :=
  fun a b =>
    inferInstanceAs (Decidable ((letterKey rooms a).data ≤ (letterKey rooms b).data))

/-- One step of building the `grouped` JS `Map<string, Issue[]>`: append to
the existing bucket, else add a new bucket at the end (JS `Map` preserves
insertion order of keys). -/
def groupInsert (groups : List (String × List Issue)) (i : Issue) :
    List (String × List Issue) :=
  if groups.any (fun g => decide (g.1 = i.roomSlug)) then
    groups.map (fun g => if g.1 = i.roomSlug then (g.1, g.2 ++ [i]) else g)
  else groups ++ [(i.roomSlug, [i])]

/-- `zip.ts`: group the issue list by `roomSlug`, first-appearance order. -/
def groupByRoom (issues : List Issue) : List (String × List Issue) :=
  issues.foldl groupInsert []

/-- `zip.ts` `createIssueExportData`: one manifest issue entry. -/
def createIssueExportData (issue : Issue) (roomName : String)
    (photoDetails : List PhotoDetail) : IssueEntry :=
  { id := issue.id,
    code := issue.code.getD "",
    roomSlug := issue.roomSlug,
    roomName := roomName,
    assigneeSlug := issue.assigneeSlug.getD "",
    type := match issue.type with
            | some .todo => "todo"
            | some .reserve => "reserve"
            | none => "reserve",
    title := issue.title,
    description := issue.description,
    status := match issue.status with | .opened => "open" | .done => "done",
    createdAt := some ⟨issue.createdAt⟩,
    updatedAt := some ⟨issue.updatedAt⟩,
    photoCount := photoDetails.length,
    photos := some (photoDetails.map PhotoEntry.modern) }

/-- Accumulator of the export loop: the `usedFilenames` set (as the list of
names in the order they were claimed), the zip `img/` entries, and the
manifest issue entries built so far. -/
structure ExpState where
  used : List String
  files : List (String × Blob)
  entries : List IssueEntry
deriving Repr

/-- Accumulator of the per-issue photo loop (shares `used`/`files` with the
enclosing export, collects this issue's `photoDetails`). -/
structure PhotoAcc where
  used : List String
  files : List (String × Blob)
  details : List PhotoDetail
deriving Repr

/-- Export of the `idx`-th photo of issue `issueId`: derive the extension
from the MIME type, pick collision-free names for the full image and the
thumbnail, add both blobs under `img/`, and record the manifest detail with
the names actually used. -/
def exportPhoto (issueId : String) (idx : Nat) (acc : PhotoAcc)
    (photo : PhotoRef) : PhotoAcc :=
  let extension := extForMime photo.mimeType
  let base := issueId ++ "-" ++ natDecimal (idx + 1)
  let filename := freeName acc.used base extension
  let used1 := acc.used ++ [filename]
  let thumbBase := issueId ++ "-" ++ natDecimal (idx + 1) ++ "-thumb"
  let thumbFilename := freeName used1 thumbBase extension
  { used := used1 ++ [thumbFilename],
    files := acc.files ++ [("img/" ++ filename, photo.blob),
                           ("img/" ++ thumbFilename, photo.thumbnailBlob)],
    details := acc.details ++ [{
      path := "img/" ++ filename,
      id := photo.id,
      mimeType := photo.mimeType,
      width := photo.width,
      height := photo.height,
      thumbnailPath := "img/" ++ thumbFilename,
      createdAt := some ⟨photo.createdAt⟩ }] }

/-- Export of one issue: fetch its photos from the store, export each, and
append the manifest entry. -/
def exportIssue (st : Store) (roomName : String) (acc : ExpState)
    (issue : Issue) : ExpState :=
  let ps := getPhotosByIssue st issue.id
  let r := ps.enum.foldl
    (fun a ip => exportPhoto issue.id ip.1 a ip.2)
    { used := acc.used, files := acc.files, details := [] }
  { used := r.used, files := r.files,
    entries := acc.entries ++ [createIssueExportData issue roomName r.details] }

/-- The result of `generateZipBlob`: the manifest (`report.json`), the
`img/` assets, the room iteration order (one `## roomName` heading of
`report.md` and one contiguous manifest group per element, in order), and
the heading texts of the report. -/
structure ExportResult where
  manifest : Manifest
  files : List (String × Blob)
  roomOrder : List String
  reportHeadings : List String
deriving Repr

/-- `zip.ts` `generateZipBlob(issues, rooms, assignees)`: group issues by
room, sort the room slugs by letter key, export every issue of every room
in that order, and assemble the manifest. Photos are read from the store
(`getPhotosByIssue`). -/
def generateZipBlob (st : Store) (issues : List Issue) (rooms : List Room)
    (assignees : List Assignee) (exportDate : IsoString) : ExportResult :=
  let roomMap := rooms.map (fun r => (r.slug, r.name))
  let grouped := groupByRoom issues
  let sortedSlugs := List.insertionSort (slugLe rooms) (grouped.map Prod.fst)
  let roomNameOf := fun slug => jsOr ((mapGet roomMap slug).getD "") slug
  let final := sortedSlugs.foldl
    (fun acc slug =>
      let roomIssues := (mapGet grouped slug).getD []
      roomIssues.foldl (exportIssue st (roomNameOf slug)) acc)
    { used := [], files := [], entries := [] }
  { manifest := {
      exportDate := some exportDate,
      totalIssues := issues.length,
      openIssues := (issues.filter (fun i => decide (i.status = .opened))).length,
      doneIssues := (issues.filter (fun i => decide (i.status = .done))).length,
      rooms := .arr (rooms.map (fun r => RoomEntry.obj r.slug r.name r.letter)),
      assignees := .arr (assignees.map (fun a => AssigneeEntry.obj a.slug a.name)),
      issues := .arr final.entries },
    files := final.files,
    roomOrder := sortedSlugs,
    reportHeadings := sortedSlugs.map roomNameOf }

/-! ## Import (`zip.ts` `importZip`) -/

/-- `zip.ts`: `type ImportMode = 'replace' | 'merge'`. -/
inductive ImportMode where
  | replace
  | merge
deriving DecidableEq, Repr

/-- The batch-fatal import failures: `report.json` absent, its `issues`
field missing or not an array, or (merge mode) the stored `rooms` /
`assignees` config value failing `JSON.parse`. -/
inductive ImportError where
  | manifestMissing
  | invalidFormat
  | configParseFailure
deriving DecidableEq, Repr

/-- The counts returned by `importZip`. -/
structure ImportCounts where
  issueCount : Nat
  photoCount : Nat
  roomCount : Nat
  assigneeCount : Nat
deriving DecidableEq, Repr

/-- `crypto.randomUUID()`: draw a fresh opaque id from the supply. -/
def freshUuid (st : Store) : String × Store :=
  ("uuid-" ++ natDecimal st.uuidSeed, { st with uuidSeed := st.uuidSeed + 1 })

/-- Merge-mode reconciliation of rooms: append each valid imported room
whose slug is not in the pre-import slug set (computed once, before the
loop), counting the appended ones. -/
def mergeRooms (existing : List Room) (valid : List Room) : List Room × Nat :=
  let existingSlugs := existing.map Room.slug
  valid.foldl
    (fun p r => if r.slug ∈ existingSlugs then p else (p.1 ++ [r], p.2 + 1))
    (existing, 0)

/-- Merge-mode reconciliation of assignees (same shape as `mergeRooms`). -/
def mergeAssignees (existing : List Assignee) (valid : List Assignee) :
    List Assignee × Nat :=
  let existingSlugs := existing.map Assignee.slug
  valid.foldl
    (fun p a => if a.slug ∈ existingSlugs then p else (p.1 ++ [a], p.2 + 1))
    (existing, 0)

/-- The rooms section of `importZip`: skipped unless the manifest's `rooms`
is an array with at least one valid entry; replace mode overwrites the
stored list, merge mode parses the stored list (failure is fatal) and
appends the new slugs. Returns the updated store and `roomCount`. -/
def importRooms (st : Store) (m : Manifest) (mode : ImportMode) :
    Except ImportError (Store × Nat) :=
  match m.rooms with
  | .arr entries =>
    let validRooms := entries.filterMap RoomEntry.valid?
    if validRooms.length > 0 then
      match mode with
      | .merge =>
        match st.roomsKV with
        | some none => .error .configParseFailure
        | some (some existing) =>
          let mr := mergeRooms existing validRooms
          .ok ({ st with roomsKV := some (some mr.1) }, mr.2)
        | none =>
          let mr := mergeRooms [] validRooms
          .ok ({ st with roomsKV := some (some mr.1) }, mr.2)
      | .replace =>
        .ok ({ st with roomsKV := some (some validRooms) }, validRooms.length)
    else .ok (st, 0)
  | _ => .ok (st, 0)

/-- The assignees section of `importZip` (same shape as `importRooms`). -/
def importAssignees (st : Store) (m : Manifest) (mode : ImportMode) :
    Except ImportError (Store × Nat) :=
  match m.assignees with
  | .arr entries =>
    let validAssignees := entries.filterMap AssigneeEntry.valid?
    if validAssignees.length > 0 then
      match mode with
      | .merge =>
        match st.assigneesKV with
        | some none => .error .configParseFailure
        | some (some existing) =>
          let ma := mergeAssignees existing validAssignees
          .ok ({ st with assigneesKV := some (some ma.1) }, ma.2)
        | none =>
          let ma := mergeAssignees [] validAssignees
          .ok ({ st with assigneesKV := some (some ma.1) }, ma.2)
      | .replace =>
        .ok ({ st with assigneesKV := some (some validAssignees) },
             validAssignees.length)
    else .ok (st, 0)
  | _ => .ok (st, 0)

/-- Accumulator of the per-issue photo import loop. -/
structure ImpPhotoAcc where
  st : Store
  photoIds : List String
  photoCount : Nat

/-- The asset path referenced by a photo entry (the bare string for the
legacy form, the `path` field for the structured form). -/
def PhotoEntry.path : PhotoEntry → String
  | .legacy p => p
  | .modern d => d.path

/-- Import of one photo entry of issue `issueId`: skip on empty path,
disallowed extension, or missing asset; load the thumbnail if its path is
present, allow-listed and found, else reuse the full image; defaults for
missing metadata; save the photo record. -/
def importPhotoEntry (archive : Archive) (issueId : String) (now : Int)
    (acc : ImpPhotoAcc) (pd : PhotoEntry) : ImpPhotoAcc :=
  let photoPath := pd.path
  if photoPath = "" then acc else
  let ext := pathExt photoPath
  if ¬ (ext ≠ "" ∧ SAFE_EXTENSIONS.contains ext) then acc else
  match zipLookup archive.files photoPath with
  | none => acc
  | some blob =>
    let thumbnailBlob :=
      match pd with
      | .legacy _ => blob
      | .modern d =>
        if d.thumbnailPath ≠ "" then
          let thumbExt := pathExt d.thumbnailPath
          if thumbExt ≠ "" ∧ SAFE_EXTENSIONS.contains thumbExt then
            match zipLookup archive.files d.thumbnailPath with
            | some tb => tb
            | none => blob
          else blob
        else blob
    let idSt : String × Store :=
      match pd with
      | .legacy _ => freshUuid acc.st
      | .modern d => if d.id = "" then freshUuid acc.st else (d.id, acc.st)
    let mimeType :=
      match pd with
      | .legacy _ => "image/" ++ (if ext = "jpg" then "jpeg" else ext)
      | .modern d => jsOr d.mimeType "image/jpeg"
    let width := match pd with | .legacy _ => 0 | .modern d => d.width
    let height := match pd with | .legacy _ => 0 | .modern d => d.height
    let photoCreatedAt :=
      match pd with
      | .legacy _ => now
      | .modern d => match d.createdAt with | some t => t.ms | none => now
    let photoRef : PhotoRef := {
      id := idSt.1, issueId := issueId, mimeType := mimeType,
      width := width, height := height, createdAt := photoCreatedAt,
      blob := blob, thumbnailBlob := thumbnailBlob }
    { st := savePhoto idSt.2 photoRef,
      photoIds := acc.photoIds ++ [idSt.1],
      photoCount := acc.photoCount + 1 }

/-- Accumulator of the issue import loop. -/
structure ImpAcc where
  st : Store
  issueCount : Nat
  photoCount : Nat

/-- Import of one manifest issue entry: skip entries missing `id`,
`roomSlug` or `title`; normalize `status` and `type`; import the photo
entries; save the rebuilt issue (put-or-replace by id). -/
def importIssueEntry (archive : Archive) (now : Int) (acc : ImpAcc)
    (e : IssueEntry) : ImpAcc :=
  if e.id = "" ∨ e.roomSlug = "" ∨ e.title = "" then acc else
  let status := if e.status = "done" then Status.done else Status.opened
  let pr :=
    match e.photos with
    | some pds => pds.foldl (importPhotoEntry archive e.id now)
        { st := acc.st, photoIds := [], photoCount := 0 }
    | none => { st := acc.st, photoIds := [], photoCount := 0 }
  let issue : Issue := {
    id := e.id,
    code := if e.code = "" then none else some e.code,
    roomSlug := e.roomSlug,
    assigneeSlug := if e.assigneeSlug = "" then none else some e.assigneeSlug,
    type := if e.type = "todo" then some .todo else some .reserve,
    title := e.title,
    description := e.description,
    status := status,
    createdAt := match e.createdAt with | some t => t.ms | none => now,
    updatedAt := match e.updatedAt with | some t => t.ms | none => now,
    photos := pr.photoIds }
  { st := saveIssue pr.st issue,
    issueCount := acc.issueCount + 1,
    photoCount := acc.photoCount + pr.photoCount }

/-- `zip.ts` `importZip(file, mode)`: fail if `report.json` is absent or its
`issues` field is missing or not an array (before any mutation); in replace
mode clear all data; reconcile rooms and assignees; then import each issue
entry. Returns the counts and the resulting store. -/
def importZip (st0 : Store) (archive : Archive) (mode : ImportMode)
    (now : Int) : Except ImportError (ImportCounts × Store) :=
  match archive.manifest with
  | none => .error .manifestMissing
  | some m =>
    match m.issues with
    | .missing => .error .invalidFormat
    | .notArray => .error .invalidFormat
    | .arr entries =>
      let st1 := match mode with | .replace => clearAllData st0 | .merge => st0
      match importRooms st1 m mode with
      | .error e => .error e
      | .ok (st2, roomCount) =>
        match importAssignees st2 m mode with
        | .error e => .error e
        | .ok (st3, assigneeCount) =>
          let r := entries.foldl (importIssueEntry archive now)
            { st := st3, issueCount := 0, photoCount := 0 }
          .ok ({ issueCount := r.issueCount, photoCount := r.photoCount,
                 roomCount := roomCount, assigneeCount := assigneeCount }, r.st)

/-! ## Derived notions used to state the properties -/

/-- The filenames of the archive's binary entries. -/
def namesOf (files : List (String × Blob)) : List String := files.map Prod.fst

/-- The issue entries of a manifest (empty unless `issues` is an array). -/
def Manifest.issueList (m : Manifest) : List IssueEntry :=
  match m.issues with
  | .arr l => l
  | _ => []

/-- The structured photo details of a manifest issue entry. -/
def IssueEntry.modernDetails (e : IssueEntry) : List PhotoDetail :=
  (e.photos.getD []).filterMap fun pe =>
    match pe with
    | .modern d => some d
    | .legacy _ => none

/-- The photo entries of a manifest issue entry. -/
def photoEntriesOf (e : IssueEntry) : List PhotoEntry := e.photos.getD []

/-- The per-entry validation applied by `importZip`: an issue entry is
imported iff `id`, `roomSlug` and `title` are all present (non-falsy). -/
def validIssueEntry (e : IssueEntry) : Prop :=
  e.id ≠ "" ∧ e.roomSlug ≠ "" ∧ e.title ≠ ""

instance : DecidablePred validIssueEntry := fun e =>
  inferInstanceAs (Decidable (e.id ≠ "" ∧ e.roomSlug ≠ "" ∧ e.title ≠ ""))

/-- The per-photo validation applied by `importZip`: a photo entry is
imported iff its path is present, its extension is allow-listed, and the
referenced asset exists in the archive. -/
def validPhotoEntry (archive : Archive) (pd : PhotoEntry) : Prop :=
  pd.path ≠ "" ∧ (pathExt pd.path ≠ "" ∧ SAFE_EXTENSIONS.contains (pathExt pd.path)) ∧
    zipLookup archive.files pd.path ≠ none

instance : DecidablePred (validPhotoEntry archive) := fun pd => by
  unfold validPhotoEntry
  exact inferInstanceAs (Decidable (pd.path ≠ "" ∧ _ ∧ _))

/-- The number of photos `importZip` imports for one issue entry. -/
def entryPhotoCount (archive : Archive) (e : IssueEntry) : Nat :=
  (photoEntriesOf e).countP (fun pd => decide (validPhotoEntry archive pd))

/-- Little-endian base-10 evaluation, left inverse of `decimalDigits`. -/
def fromDigits : List Nat → Nat
  | [] => 0
  | d :: ds => d + 10 * fromDigits ds

/-- A snapshot store as produced by the application's own mutators: issues
carry non-empty ids/room slugs/titles, no present-but-empty `code` or
`assigneeSlug`, their `photos` list agrees with the `issueId` index, and
ids are unique in both object stores. -/
def WellFormedSnapshot (st : Store) : Prop :=
  (∀ i ∈ st.issues,
    i.id ≠ "" ∧ i.roomSlug ≠ "" ∧ i.title ≠ "" ∧
    i.code ≠ some "" ∧ i.assigneeSlug ≠ some "" ∧
    i.photos = (getPhotosByIssue st i.id).map PhotoRef.id) ∧
  (st.issues.map Issue.id).Nodup ∧
  (st.photos.map PhotoRef.id).Nodup ∧
  (∀ p ∈ st.photos, p.id ≠ "")

/-- Correspondence between a stored photo and its manifest detail: the
metadata fields are carried over, both asset paths are importable
(non-empty, allow-listed extension) and the full and thumbnail blobs are
stored in the archive under exactly those paths. -/
def photoDetailMatches (files : List (String × Blob)) (p : PhotoRef)
    (d : PhotoDetail) : Prop :=
  d.id = p.id ∧ d.mimeType = p.mimeType ∧ d.width = p.width ∧
  d.height = p.height ∧ d.createdAt = some ⟨p.createdAt⟩ ∧
  d.path ≠ "" ∧ d.thumbnailPath ≠ "" ∧
  pathExt d.path ≠ "" ∧ SAFE_EXTENSIONS.contains (pathExt d.path) ∧
  pathExt d.thumbnailPath ≠ "" ∧ SAFE_EXTENSIONS.contains (pathExt d.thumbnailPath) ∧
  (d.path, p.blob) ∈ files ∧ (d.thumbnailPath, p.thumbnailBlob) ∈ files

/-- Invariant of the per-photo export accumulator: claimed filenames are
unique, and the zip entries are exactly the claimed names under `img/`. -/
def PhotoInv (a : PhotoAcc) : Prop :=
  a.used.Nodup ∧ namesOf a.files = a.used.map (fun n => "img/" ++ n)

/-- Invariant of the export accumulator (same as `PhotoInv`). -/
def ExpInv (s : ExpState) : Prop :=
  s.used.Nodup ∧ namesOf s.files = s.used.map (fun n => "img/" ++ n)

/-- A manifest issue entry correctly exports issue `i`: it is
`createIssueExportData` of `i` under some room name, with photo details
matching the store's photos for `i` (in order). -/
def EntryFor (files : List (String × Blob)) (st : Store) (i : Issue)
    (e : IssueEntry) : Prop :=
  ∃ rn ds, e = createIssueExportData i rn ds ∧
    List.Forall₂ (photoDetailMatches files) (getPhotosByIssue st i.id) ds

/-- The parsed room list of the `rooms` config item (empty when absent;
the unparseable state is handled separately). -/
def storedRooms (st : Store) : List Room :=
  match st.roomsKV with
  | some (some l) => l
  | _ => []

/-- The parsed assignee list of the `assignees` config item. -/
def storedAssignees (st : Store) : List Assignee :=
  match st.assigneesKV with
  | some (some l) => l
  | _ => []

/-- The rooms of a manifest `rooms` array that pass import validation. -/
def validRoomsOf (entries : List RoomEntry) : List Room :=
  entries.filterMap RoomEntry.valid?

/-- The valid imported rooms whose slug is not already stored (these are
the ones merge mode appends, in order). -/
def newRooms (existing valid : List Room) : List Room :=
  valid.filter (fun r => decide (r.slug ∉ existing.map Room.slug))

/-- The assignees of a manifest `assignees` array that pass validation. -/
def validAssigneesOf (entries : List AssigneeEntry) : List Assignee :=
  entries.filterMap AssigneeEntry.valid?

/-- The valid imported assignees whose slug is not already stored. -/
def newAssignees (existing valid : List Assignee) : List Assignee :=
  valid.filter (fun a => decide (a.slug ∉ existing.map Assignee.slug))

/-- Invariant tying a partial `grouped` map to the issues already
processed: keys are unique, a key is present iff some processed issue has
that room slug, and each bucket holds exactly the processed issues of its
slug, in order. -/
def GroupInv (gs : List (String × List Issue)) (processed : List Issue) : Prop :=
  (gs.map Prod.fst).Nodup ∧
  (∀ s, s ∈ gs.map Prod.fst ↔ s ∈ processed.map Issue.roomSlug) ∧
  (∀ s, s ∈ gs.map Prod.fst →
    mapGet gs s = some (processed.filter (fun i => decide (i.roomSlug = s))))

/-- What the round trip makes of a stored photo: import falls back to
`image/jpeg` when the exported MIME type is empty; everything else is
carried over unchanged. -/
def reimportedPhoto (p : PhotoRef) : PhotoRef :=
  { p with mimeType := jsOr p.mimeType "image/jpeg" }

/-- What the round trip makes of a stored issue: import always normalizes
`type` to a present value (`reserve` when it was absent); everything else
is carried over unchanged. -/
def reimportedIssue (i : Issue) : Issue :=
  { i with type := some (i.type.getD .reserve) }

/-! ## Concrete inputs used by counterexamples and witnesses -/

/-- An issue with no explicit `type` (allowed: `type` is optional for
backward compatibility) and no photos. -/
def exRTIssue : Issue :=
  { id := "i1", roomSlug := "r", title := "t", description := "",
    status := .opened, createdAt := 5, updatedAt := 6, photos := [] }

/-- A snapshot store holding just `exRTIssue`. -/
def exRTStore : Store := { Store.empty with issues := [exRTIssue] }

/-- The archive exported from `exRTStore`. -/
def exRTArchive : Archive :=
  { manifest := some (generateZipBlob exRTStore exRTStore.issues [] [] ⟨0⟩).manifest,
    files := (generateZipBlob exRTStore exRTStore.issues [] [] ⟨0⟩).files }

/-- A one-issue archive with no photos, used for the merge re-import
scenario. -/
def exMergeArchive : Archive :=
  { manifest := some { issues := .arr [{ id := "x", roomSlug := "r", title := "t" }] },
    files := [] }

/-- The store after importing `exMergeArchive` once in merge mode. -/
def exMergeSt1 : Store :=
  match importZip Store.empty exMergeArchive .merge 0 with
  | .ok r => r.2
  | .error _ => Store.empty

/-- The store after importing `exMergeArchive` a second time in merge mode. -/
def exMergeSt2 : Store :=
  match importZip exMergeSt1 exMergeArchive .merge 0 with
  | .ok r => r.2
  | .error _ => Store.empty

/-- An archive whose `rooms` array contains two valid rooms sharing one
slug. -/
def exDupRoomsArchive : Archive :=
  { manifest := some
      { issues := .arr [],
        rooms := .arr [.obj "a" "x" none, .obj "a" "y" none] },
    files := [] }

/-- Issue entries used to witness C6: one valid, one missing its title,
and one valid entry whose only photo has a disallowed `.svg` extension. -/
def exC6Entries : List IssueEntry :=
  [{ id := "a", roomSlug := "r", title := "ok" },
   { id := "b", roomSlug := "r", title := "" },
   { id := "c", roomSlug := "r", title := "t",
     photos := some [.legacy "img/x.svg"] }]

/-- An archive carrying `exC6Entries` and no asset files. -/
def exC6Archive : Archive :=
  { manifest := some { issues := .arr exC6Entries }, files := [] }

/-- An archive with one fresh room and one fresh assignee, used to witness
the merge-mode slug reconciliation. -/
def exC7Archive : Archive :=
  { manifest := some
      { issues := .arr [],
        rooms := .arr [.obj "n" "New room" none],
        assignees := .arr [.obj "p" "Pat"] },
    files := [] }

/-- A one-photo issue used to witness the export collision policy. -/
def exC5Issue : Issue :=
  { id := "x", roomSlug := "r", title := "t", description := "",
    status := .opened, createdAt := 0, updatedAt := 0, photos := ["q1"] }

/-- The photo of `exC5Issue`. -/
def exC5Photo : PhotoRef :=
  { id := "q1", issueId := "x", mimeType := "image/jpeg", width := 1,
    height := 1, createdAt := 0, blob := [1], thumbnailBlob := [2] }

/-- A snapshot store holding `exC5Issue` and its photo. -/
def exC5Store : Store :=
  { Store.empty with issues := [exC5Issue], photos := [exC5Photo] }

/-- The export of `exC5Store`. -/
def exC5Export : ExportResult := generateZipBlob exC5Store exC5Store.issues [] [] ⟨0⟩

/-- Two rooms without letters, named so that name order is "A" before "B". -/
def exLetterlessRooms : List Room :=
  [{ slug := "a", name := "A" }, { slug := "b", name := "B" }]

/-- Two photo-less issues, the first in room `b`, the second in room `a`. -/
def exOrderIssues : List Issue :=
  [{ id := "i-b", roomSlug := "b", title := "tb", description := "",
     status := .opened, createdAt := 0, updatedAt := 0, photos := [] },
   { id := "i-a", roomSlug := "a", title := "ta", description := "",
     status := .opened, createdAt := 0, updatedAt := 0, photos := [] }]

/-! ## Theorems -/

instance : IsTotal Room roomNameLe := ⟨fun a b => le_total a.name.data b.name.data⟩

instance : IsTrans Room roomNameLe := ⟨fun _ _ _ h h' => le_trans h h'⟩

instance : IsTotal String (slugLe rooms) := ⟨fun _ _ => le_total _ _⟩

instance : IsTrans String (slugLe rooms) := ⟨fun _ _ _ h h' => le_trans h h'⟩

/-- **C2**: after `deleteIssue id`, no `PhotoRecord` references the issue id
(`getPhotosByIssue` returns the empty list) and the issue itself is gone;
in the embedding the whole cascade is one state transition, mirroring the
single read-write transaction of the source. -/
theorem C2_cascade_delete (st : Store) (id : String) :
    getPhotosByIssue (deleteIssue st id) id = [] ∧
    getIssue (deleteIssue st id) id = none := by
  constructor
  · rw [getPhotosByIssue, List.filter_eq_nil_iff]
    intro p hp
    simp only [deleteIssue, List.mem_filter, decide_eq_true_eq] at hp
    simp only [decide_eq_true_eq]
    intro hiss
    exact hp.2 (List.mem_map_of_mem PhotoRef.id
      (by simp [getPhotosByIssue, List.mem_filter, hp.1, hiss]))
  · rw [getIssue, List.find?_eq_none]
    intro i hi
    simp only [deleteIssue, List.mem_filter, decide_eq_true_eq] at hi
    simpa using hi.2

/-- `⌊(n : ℚ) + 1/2⌋ = n` for a natural `n`. -/
theorem jsRound_natCast (n : Nat) : jsRound (n : ℚ) = n := by
  rw [jsRound]
  rw [show ((n : ℚ) + 1/2 : ℚ) = 1/2 + (n : ℤ) by push_cast; ring]
  rw [Int.floor_add_int]
  norm_num

/-- `jsRound` is monotone. -/
theorem jsRound_mono {p q : ℚ} (h : p ≤ q) : jsRound p ≤ jsRound q :=
  Int.floor_le_floor (by linarith)

/-- **C9**: `resizeToCanvas` leaves dimensions within the given bounds
unchanged; for positive dimensions neither output dimension exceeds its
bound; hence re-running `processPhoto` on its own reported full-size
dimensions does not shrink them further. -/
theorem C9_resize_idempotent :
    (∀ w h maxW maxH : Nat, w ≤ maxW → h ≤ maxH →
        resizeToCanvas w h maxW maxH = (w, h)) ∧
    (∀ w h maxW maxH : Nat, 0 < w → 0 < h →
        (resizeToCanvas w h maxW maxH).1 ≤ maxW ∧
        (resizeToCanvas w h maxW maxH).2 ≤ maxH) ∧
    (∀ w h : Nat, 0 < w → 0 < h →
        (processPhoto (processPhoto w h).width (processPhoto w h).height).width
          = (processPhoto w h).width ∧
        (processPhoto (processPhoto w h).width (processPhoto w h).height).height
          = (processPhoto w h).height) := by
  have hA : ∀ w h maxW maxH : Nat, w ≤ maxW → h ≤ maxH →
      resizeToCanvas w h maxW maxH = (w, h) := by
    intro w h maxW maxH hw hh
    rw [resizeToCanvas, if_neg]
    push_neg
    exact ⟨hw, hh⟩
  have hB : ∀ w h maxW maxH : Nat, 0 < w → 0 < h →
      (resizeToCanvas w h maxW maxH).1 ≤ maxW ∧
      (resizeToCanvas w h maxW maxH).2 ≤ maxH := by
    intro w h maxW maxH hw hh
    rw [resizeToCanvas]
    split
    · set scale : ℚ := min ((maxW : ℚ) / w) ((maxH : ℚ) / h) with hscale
      have hw0 : (0 : ℚ) < (w : ℚ) := by exact_mod_cast hw
      have hh0 : (0 : ℚ) < (h : ℚ) := by exact_mod_cast hh
      have h1 : (w : ℚ) * scale ≤ maxW := by
        calc (w : ℚ) * scale ≤ (w : ℚ) * ((maxW : ℚ) / w) := by
              apply mul_le_mul_of_nonneg_left (min_le_left _ _) (le_of_lt hw0)
          _ = maxW := by field_simp
      have h2 : (h : ℚ) * scale ≤ maxH := by
        calc (h : ℚ) * scale ≤ (h : ℚ) * ((maxH : ℚ) / h) := by
              apply mul_le_mul_of_nonneg_left (min_le_right _ _) (le_of_lt hh0)
          _ = maxH := by field_simp
      constructor
      · simp only []
        have := jsRound_mono h1
        rw [jsRound_natCast] at this
        exact Int.toNat_le.mpr this
      · simp only []
        have := jsRound_mono h2
        rw [jsRound_natCast] at this
        exact Int.toNat_le.mpr this
    · next hcond =>
      push_neg at hcond
      exact hcond
  refine ⟨hA, hB, ?_⟩
  intro w h hw hh
  have hfull := hB w h MAX_WIDTH MAX_HEIGHT hw hh
  have hw' : (processPhoto w h).width ≤ MAX_WIDTH := hfull.1
  have hh' : (processPhoto w h).height ≤ MAX_HEIGHT := hfull.2
  constructor
  · show (resizeToCanvas _ _ MAX_WIDTH MAX_HEIGHT).1 = _
    rw [hA _ _ _ _ hw' hh']
  · show (resizeToCanvas _ _ MAX_WIDTH MAX_HEIGHT).2 = _
    rw [hA _ _ _ _ hw' hh']

/-- Witness for **C9** at concrete inputs. -/
theorem C9_witness :
    resizeToCanvas 640 480 1280 1280 = (640, 480) ∧
    ((resizeToCanvas 2560 1440 1280 1280).1 ≤ 1280 ∧
      (resizeToCanvas 2560 1440 1280 1280).2 ≤ 1280) ∧
    (processPhoto (processPhoto 2560 1440).width (processPhoto 2560 1440).height).width
      = (processPhoto 2560 1440).width :=
  ⟨C9_resize_idempotent.1 640 480 1280 1280 (by norm_num) (by norm_num),
   C9_resize_idempotent.2.1 2560 1440 1280 1280 (by norm_num) (by norm_num),
   (C9_resize_idempotent.2.2 2560 1440 (by norm_num) (by norm_num)).1⟩

/-- **C10** fails as stated: the returned list is *not* always non-empty —
a stored value parsing to the empty list is returned as the empty list. -/
theorem C10_counterexample :
    (getRooms { Store.empty with roomsKV := some (some []) }).1 = [] := rfl

/-- **C10** (amended): `getRooms` is total; an absent or unparseable stored
value re-seeds the default room list and returns it (in its built-in
order); a stored value parsing to a room list `rs` is returned as a
name-sorted permutation of `rs` (possibly empty when `rs` is), leaving the
storage untouched. -/
theorem C10_getRooms_total (st : Store) :
    ((st.roomsKV = none ∨ st.roomsKV = some none) →
      getRooms st = (DEFAULT_ROOMS, { st with roomsKV := some (some DEFAULT_ROOMS) })) ∧
    (∀ rs, st.roomsKV = some (some rs) →
      (getRooms st).2 = st ∧ (getRooms st).1.Perm rs ∧
      List.Sorted roomNameLe (getRooms st).1) := by
  constructor
  · rintro (h | h) <;> simp [getRooms, h]
  · intro rs h
    refine ⟨by simp [getRooms, h], ?_, ?_⟩
    · simp only [getRooms, h]
      exact List.perm_insertionSort roomNameLe rs
    · simp only [getRooms, h]
      exact List.sorted_insertionSort roomNameLe rs

/-- Witness for **C10** at concrete inputs. -/
theorem C10_witness :
    getRooms Store.empty
      = (DEFAULT_ROOMS, { Store.empty with roomsKV := some (some DEFAULT_ROOMS) }) ∧
    (getRooms { Store.empty with roomsKV := some (some DEFAULT_ROOMS) }).2
      = { Store.empty with roomsKV := some (some DEFAULT_ROOMS) } :=
  ⟨(C10_getRooms_total Store.empty).1 (Or.inl rfl),
   ((C10_getRooms_total _).2 DEFAULT_ROOMS rfl).1⟩

/-! ### Correctness of the export filename-collision loop -/

theorem fromDigits_decimalDigitsAux :
    ∀ fuel n, n ≤ fuel → fromDigits (decimalDigitsAux fuel n) = n := by
  intro fuel
  induction fuel with
  | zero =>
    intro n hn
    have : n = 0 := Nat.le_zero.mp hn
    subst this
    rfl
  | succ fuel ih =>
    intro n hn
    cases n with
    | zero => rfl
    | succ m =>
      rw [decimalDigitsAux, fromDigits]
      have hdiv : (m + 1) / 10 < m + 1 := Nat.div_lt_self (Nat.succ_pos m) (by norm_num)
      rw [ih ((m + 1) / 10) (by omega)]
      exact Nat.mod_add_div (m + 1) 10

theorem fromDigits_decimalDigits (n : Nat) : fromDigits (decimalDigits n) = n :=
  fromDigits_decimalDigitsAux n n le_rfl

theorem decimalDigitsAux_lt_ten :
    ∀ fuel n, ∀ d ∈ decimalDigitsAux fuel n, d < 10 := by
  intro fuel
  induction fuel with
  | zero =>
    intro n d hd
    cases n <;> simp [decimalDigitsAux] at hd
  | succ fuel ih =>
    intro n d hd
    cases n with
    | zero => simp [decimalDigitsAux] at hd
    | succ m =>
      rw [decimalDigitsAux] at hd
      rcases List.mem_cons.mp hd with h' | h'
      · subst h'; exact Nat.mod_lt _ (by norm_num)
      · exact ih _ d h'

theorem decimalDigits_lt_ten (n : Nat) : ∀ d ∈ decimalDigits n, d < 10 :=
  decimalDigitsAux_lt_ten n n

theorem digitToChar_inj :
    ∀ d, d < 10 → ∀ e, e < 10 → digitToChar d = digitToChar e → d = e := by decide

theorem map_digitToChar_inj :
    ∀ l₁ l₂ : List Nat, (∀ x ∈ l₁, x < 10) → (∀ x ∈ l₂, x < 10) →
      l₁.map digitToChar = l₂.map digitToChar → l₁ = l₂ := by
  intro l₁
  induction l₁ with
  | nil => intro l₂ _ _ h; cases l₂ <;> simp_all
  | cons a t ih =>
    intro l₂ h₁ h₂ h
    cases l₂ with
    | nil => simp_all
    | cons b t₂ =>
      simp only [List.map_cons, List.cons.injEq] at h
      have hab : a = b :=
        digitToChar_inj a (h₁ a (by simp)) b (h₂ b (by simp)) h.1
      have := ih t₂ (fun x hx => h₁ x (by simp [hx]))
        (fun x hx => h₂ x (by simp [hx])) h.2
      simp [hab, this]

theorem natDecimal_ne_zero_str (k : Nat) (hk : k ≠ 0) : natDecimal k ≠ "0" := by
  intro h
  rw [natDecimal, if_neg hk] at h
  have hdata := congrArg String.data h
  simp only [] at hdata
  have hlt : ∀ x ∈ (decimalDigits k).reverse, x < 10 :=
    fun x hx => decimalDigits_lt_ten k x (List.mem_reverse.mp hx)
  have h0 : (decimalDigits k).reverse = [0] := by
    apply map_digitToChar_inj _ _ hlt (by intro x hx; simp at hx; omega)
    rw [hdata]; rfl
  have hdd : decimalDigits k = [0] := by
    have := congrArg List.reverse h0
    simpa using this
  have h1 := fromDigits_decimalDigits k
  rw [hdd] at h1
  simp [fromDigits] at h1
  exact hk h1.symm

theorem natDecimal_inj : ∀ {m k : Nat}, natDecimal m = natDecimal k → m = k := by
  have key : ∀ m k : Nat, m ≠ 0 → k ≠ 0 → natDecimal m = natDecimal k → m = k := by
    intro m k hm hk h
    rw [natDecimal, if_neg hm, natDecimal, if_neg hk] at h
    have hdata := congrArg String.data h
    simp only [] at hdata
    have hrev := map_digitToChar_inj _ _
      (fun x hx => decimalDigits_lt_ten m x (List.mem_reverse.mp hx))
      (fun x hx => decimalDigits_lt_ten k x (List.mem_reverse.mp hx)) hdata
    have hdd : decimalDigits m = decimalDigits k := by
      have := congrArg List.reverse hrev
      simpa using this
    calc m = fromDigits (decimalDigits m) := (fromDigits_decimalDigits m).symm
      _ = fromDigits (decimalDigits k) := by rw [hdd]
      _ = k := fromDigits_decimalDigits k
  intro m k h
  by_cases hm : m = 0 <;> by_cases hk : k = 0
  · rw [hm, hk]
  · exfalso
    rw [hm, natDecimal, if_pos rfl] at h
    exact natDecimal_ne_zero_str k hk h.symm
  · exfalso
    rw [hk] at h
    rw [show natDecimal 0 = "0" from rfl] at h
    exact natDecimal_ne_zero_str m hm h
  · exact key m k hm hk h

theorem candName_inj (base ext : String) :
    ∀ {j k : Nat}, candName base ext j = candName base ext k → j = k := by
  intro j k h
  match j, k with
  | 0, 0 => rfl
  | 0, k + 1 =>
    exfalso
    have := congrArg String.data h
    simp only [candName, String.data_append, List.append_assoc] at this
    have := List.append_cancel_left this
    simp at this
  | j + 1, 0 =>
    exfalso
    have := congrArg String.data h
    simp only [candName, String.data_append, List.append_assoc] at this
    have := List.append_cancel_left this
    simp at this
  | j + 1, k + 1 =>
    have hd := congrArg String.data h
    simp only [candName, String.data_append, List.append_assoc] at hd
    have h₁ := List.append_cancel_left hd
    simp only [List.cons_append, List.nil_append] at h₁
    have h₂ := List.cons.inj h₁
    have h₃ := List.append_cancel_right h₂.2
    have : natDecimal (j + 1) = natDecimal (k + 1) := String.ext h₃
    have := natDecimal_inj this
    omega

theorem freeNameAux_covers (used : List String) (base ext : String) :
    ∀ fuel i, freeNameAux used base ext i fuel ∈ used →
      ∀ j, i ≤ j → j ≤ i + fuel → candName base ext j ∈ used := by
  intro fuel
  induction fuel with
  | zero =>
    intro i h j hij hji
    have : j = i := by omega
    rw [this]
    simpa [freeNameAux] using h
  | succ fuel ih =>
    intro i h j hij hji
    rw [freeNameAux] at h
    by_cases hc : candName base ext i ∈ used
    · simp only [hc, if_pos] at h
      rcases Nat.eq_or_lt_of_le hij with heq | hlt
      · exact heq ▸ hc
      · exact ih (i + 1) h j hlt (by omega)
    · simp [hc] at h

/-- The filename chosen by the collision loop is never one already used. -/
theorem freeName_not_mem (used : List String) (base ext : String) :
    freeName used base ext ∉ used := by
  intro hmem
  have hall := freeNameAux_covers used base ext (used.length + 1) 0 hmem
  set L := used.length with hL
  have hsub : ((List.range (L + 2)).map (candName base ext)) ⊆ used := by
    intro x hx
    rcases List.mem_map.mp hx with ⟨j, hj, rfl⟩
    exact hall j (by omega) (by simp at hj; omega)
  have hnodup : ((List.range (L + 2)).map (candName base ext)).Nodup :=
    (List.nodup_range _).map fun _ _ h => candName_inj base ext h
  have := (hnodup.subperm hsub).length_le
  simp [hL] at this

/-- The collision loop always returns one of the candidate names. -/
theorem freeName_shape (used : List String) (base ext : String) :
    ∃ j, freeName used base ext = candName base ext j := by
  rw [freeName]
  generalize 0 = i
  generalize used.length + 1 = fuel
  induction fuel generalizing i with
  | zero => exact ⟨i, rfl⟩
  | succ fuel ih =>
    rw [freeNameAux]
    by_cases hc : candName base ext i ∈ used
    · simpa [hc] using ih (i + 1)
    · exact ⟨i, by simp [hc]⟩

/-! ### Path extension extraction -/

theorem splitOnChar_ne_nil (sep : Char) : ∀ l, splitOnChar sep l ≠ [] := by
  intro l
  induction l with
  | nil => simp [splitOnChar]
  | cons c cs ih =>
    rcases h : splitOnChar sep cs with _ | ⟨s, rest⟩
    · exact absurd h ih
    · show (match splitOnChar sep cs with
        | [] => [[]]
        | s :: rest => if c = sep then [] :: s :: rest else (c :: s) :: rest) ≠ []
      rw [h]
      by_cases hc : c = sep <;> simp [hc]

theorem splitOnChar_cons_eq (sep c : Char) (cs s : List Char)
    (rest : List (List Char)) (hs : splitOnChar sep cs = s :: rest) :
    splitOnChar sep (c :: cs)
      = if c = sep then [] :: s :: rest else (c :: s) :: rest := by
  show (match splitOnChar sep cs with
    | [] => [[]]
    | s :: rest => if c = sep then [] :: s :: rest else (c :: s) :: rest) = _
  rw [hs]

theorem splitOnChar_no_sep (sep : Char) :
    ∀ l, sep ∉ l → splitOnChar sep l = [l] := by
  intro l
  induction l with
  | nil => simp [splitOnChar]
  | cons c cs ih =>
    intro h
    have hc : c ≠ sep := fun hcs => h (hcs ▸ List.mem_cons_self c cs)
    have hcs : sep ∉ cs := fun hm => h (List.mem_cons_of_mem c hm)
    rw [splitOnChar_cons_eq sep c cs cs [] (ih hcs)]
    simp [hc]

theorem splitOnChar_two_le (sep : Char) :
    ∀ l, sep ∈ l → 2 ≤ (splitOnChar sep l).length := by
  intro l
  induction l with
  | nil => simp
  | cons c cs ih =>
    intro h
    rcases hs : splitOnChar sep cs with _ | ⟨s, rest⟩
    · exact absurd hs (splitOnChar_ne_nil sep cs)
    · rw [splitOnChar_cons_eq sep c cs s rest hs]
      by_cases hc : c = sep
      · simp [hc]
      · have hmem : sep ∈ cs := by
          rcases List.mem_cons.mp h with h' | h'
          · exact absurd h'.symm hc
          · exact h'
        have h2 := ih hmem
        rw [hs] at h2
        simp only [List.length_cons] at h2
        simp only [hc, if_false, List.length_cons]
        omega

theorem splitOnChar_getLast_append (sep : Char) (e : List Char) (he : sep ∉ e) :
    ∀ a, (splitOnChar sep (a ++ sep :: e)).getLast? = some e := by
  intro a
  induction a with
  | nil =>
    simp only [List.nil_append]
    rw [splitOnChar_cons_eq sep sep e e [] (splitOnChar_no_sep sep e he)]
    simp
  | cons c a ih =>
    have hmem : sep ∈ a ++ sep :: e := List.mem_append_right _ (List.mem_cons_self _ _)
    rcases hs : splitOnChar sep (a ++ sep :: e) with _ | ⟨s, rest⟩
    · exact absurd hs (splitOnChar_ne_nil sep _)
    · have hlen := splitOnChar_two_le sep _ hmem
      rw [hs] at hlen
      rcases rest with _ | ⟨s', rest'⟩
      · simp at hlen
      · rw [hs] at ih
        simp only [List.cons_append]
        rw [splitOnChar_cons_eq sep c _ s (s' :: rest') hs]
        by_cases hc : c = sep
        · simpa [hc] using ih
        · simpa [hc] using ih

/-- The character data of a string rebuilt from its data is itself. -/
theorem stringMk_data (s : String) : String.mk s.data = s := rfl

/-- Facts about the allow-listed extensions: dot-free and lowercase. -/
theorem safe_ext_facts :
    ∀ s ∈ SAFE_EXTENSIONS, ('.' ∉ s.data) ∧ strToLower s = s := by decide

/-- The extension derived on export is always allow-listed. -/
theorem extForMime_mem (m : String) : extForMime m ∈ SAFE_EXTENSIONS := by
  rw [extForMime]
  split
  · set e := strToLower (String.mk ((splitOnChar '/' (jsOr m "image/jpeg").data).getD 1 [])) with he
    by_cases h : SAFE_EXTENSIONS.contains e = true
    · rw [if_pos h]
      exact List.mem_of_elem_eq_true h
    · rw [if_neg h]
      decide
  · decide

/-- Extracting the extension of `pre ++ "." ++ ext` yields `ext` for any
allow-listed `ext`. -/
theorem pathExt_append (pre ext : String) (hext : ext ∈ SAFE_EXTENSIONS) :
    pathExt (pre ++ "." ++ ext) = ext := by
  have hfacts := safe_ext_facts ext hext
  have hdata : (pre ++ "." ++ ext).data = pre.data ++ '.' :: ext.data := by
    simp [String.data_append]
  rw [pathExt, hdata]
  rw [List.getLastD_eq_getLast?, splitOnChar_getLast_append '.' ext.data hfacts.1 pre.data]
  simp only [Option.getD_some]
  rw [stringMk_data]
  exact hfacts.2

/-- **C3**: an archive without `report.json`, or whose manifest's `issues`
field is missing or not an array, makes `importZip` fail with the
malformed-archive error in every mode; the checks precede every store
mutation in the source, and in the embedding the error result carries no
successor store, so the state is unchanged. -/
theorem C3_malformed_archive (st : Store) (archive : Archive)
    (mode : ImportMode) (now : Int) :
    (archive.manifest = none →
      importZip st archive mode now = .error .manifestMissing) ∧
    (∀ m, archive.manifest = some m →
      m.issues = .missing ∨ m.issues = .notArray →
      importZip st archive mode now = .error .invalidFormat) := by
  constructor
  · intro h
    simp [importZip, h]
  · intro m hm hbad
    rcases hbad with h | h <;> simp [importZip, hm, h]

/-- Witness for **C3** at concrete inputs. -/
theorem C3_witness :
    importZip Store.empty { manifest := none, files := [] } .merge 0
      = .error .manifestMissing ∧
    importZip Store.empty { manifest := some { issues := .notArray }, files := [] }
      .replace 0 = .error .invalidFormat :=
  ⟨(C3_malformed_archive Store.empty _ .merge 0).1 rfl,
   (C3_malformed_archive Store.empty _ .replace 0).2 _ rfl (Or.inr rfl)⟩

/-! ### Export invariants: unique filenames, details matching photos -/

/-- Every collision-loop candidate splits as `pre ++ "." ++ ext`. -/
theorem candName_split (base ext : String) (k : Nat) :
    ∃ pre : String, candName base ext k = pre ++ "." ++ ext := by
  cases k with
  | zero => exact ⟨base, rfl⟩
  | succ k =>
    refine ⟨base ++ "-" ++ natDecimal (k + 1), ?_⟩
    rw [candName]

/-- A freshly chosen asset path under `img/` still ends in `.ext`. -/
theorem pathExt_imgPath (used : List String) (base ext : String)
    (hext : ext ∈ SAFE_EXTENSIONS) :
    pathExt ("img/" ++ freeName used base ext) = ext := by
  obtain ⟨j, hj⟩ := freeName_shape used base ext
  obtain ⟨pre, hpre⟩ := candName_split base ext j
  rw [hj, hpre]
  have hassoc : "img/" ++ (pre ++ "." ++ ext) = ("img/" ++ pre) ++ "." ++ ext :=
    String.ext (by simp [String.data_append, List.append_assoc])
  rw [hassoc]
  exact pathExt_append ("img/" ++ pre) ext hext

/-- `img/`-prefixed names are never empty. -/
theorem imgPath_ne_empty (n : String) : ("img/" ++ n) ≠ "" := by
  intro h
  have := congrArg String.data h
  simp [String.data_append] at this

/-- `img/`-prefixing is injective. -/
theorem imgPath_inj : Function.Injective (fun n : String => "img/" ++ n) := by
  intro a b h
  have := congrArg String.data h
  simp only [String.data_append] at this
  exact String.ext (List.append_cancel_left this)

/-- Matching details survive when the archive gains more files. -/
theorem photoDetailMatches_mono {files tail : List (String × Blob)}
    {p : PhotoRef} {d : PhotoDetail} (h : photoDetailMatches files p d) :
    photoDetailMatches (files ++ tail) p d := by
  obtain ⟨h1, h2, h3, h4, h5, h6, h7, h8, h9, h10, h11, h12, h13⟩ := h
  exact ⟨h1, h2, h3, h4, h5, h6, h7, h8, h9, h10, h11,
    List.mem_append_left _ h12, List.mem_append_left _ h13⟩

/-- `EntryFor` survives when the archive gains more files. -/
theorem EntryFor_mono {files tail : List (String × Blob)} {st : Store}
    {i : Issue} {e : IssueEntry} (h : EntryFor files st i e) :
    EntryFor (files ++ tail) st i e := by
  obtain ⟨rn, ds, he, hf⟩ := h
  exact ⟨rn, ds, he, hf.imp fun _ _ hm => photoDetailMatches_mono hm⟩

/-- Appending two fresh names keeps a name list duplicate-free. -/
theorem nodup_append_two (l : List String) (x y : String) (h : l.Nodup)
    (hx : x ∉ l) (hy : y ∉ l ++ [x]) : ((l ++ [x]) ++ [y]).Nodup := by
  have hyl : y ∉ l := fun hm => hy (List.mem_append_left _ hm)
  have hyx : y ≠ x := fun he => hy (List.mem_append_right _ (by simp [he]))
  simp only [List.nodup_append, List.nodup_cons, List.not_mem_nil,
    not_false_iff, List.nodup_nil, and_true, true_and, List.disjoint_singleton]
  refine ⟨⟨h, hx⟩, ?_⟩
  intro hmem
  rcases List.mem_append.mp hmem with h1 | h1
  · exact hyl h1
  · exact hyx (List.mem_singleton.mp h1)

/-- One export step of one photo: the invariant is preserved, the files grow
by exactly the new full image and thumbnail, and the recorded detail
matches the photo against the grown file set. -/
theorem exportPhoto_spec (issueId : String) (idx : Nat) (a : PhotoAcc)
    (p : PhotoRef) (h : PhotoInv a) :
    PhotoInv (exportPhoto issueId idx a p) ∧
    (∃ tail, (exportPhoto issueId idx a p).files = a.files ++ tail) ∧
    (∃ d, (exportPhoto issueId idx a p).details = a.details ++ [d] ∧
      photoDetailMatches (exportPhoto issueId idx a p).files p d) := by
  obtain ⟨hnd, hnames⟩ := h
  have hmem : extForMime p.mimeType ∈ SAFE_EXTENSIONS := extForMime_mem p.mimeType
  simp only [exportPhoto]
  generalize hfn : freeName a.used (issueId ++ "-" ++ natDecimal (idx + 1))
    (extForMime p.mimeType) = fn
  generalize htfn : freeName (a.used ++ [fn])
    (issueId ++ "-" ++ natDecimal (idx + 1) ++ "-thumb")
    (extForMime p.mimeType) = tfn
  have hfn_new : fn ∉ a.used := hfn ▸ freeName_not_mem _ _ _
  have htfn_new : tfn ∉ a.used ++ [fn] := htfn ▸ freeName_not_mem _ _ _
  have hpext : pathExt ("img/" ++ fn) = extForMime p.mimeType :=
    hfn ▸ pathExt_imgPath _ _ _ hmem
  have hpext' : pathExt ("img/" ++ tfn) = extForMime p.mimeType :=
    htfn ▸ pathExt_imgPath _ _ _ hmem
  have hne : extForMime p.mimeType ≠ "" := by
    intro hempty
    rw [hempty] at hmem
    simp [SAFE_EXTENSIONS] at hmem
  refine ⟨⟨?_, ?_⟩, ⟨_, rfl⟩, ⟨_, rfl, ?_⟩⟩
  · exact nodup_append_two _ _ _ hnd hfn_new htfn_new
  · show namesOf (a.files ++ _) = _
    rw [namesOf, List.map_append, ← namesOf, hnames]
    simp [List.map_append]
  · refine ⟨rfl, rfl, rfl, rfl, rfl, imgPath_ne_empty fn, imgPath_ne_empty tfn,
      ?_, ?_, ?_, ?_, ?_, ?_⟩
    · rw [hpext]; exact hne
    · rw [hpext]; exact List.elem_eq_true_of_mem hmem
    · rw [hpext']; exact hne
    · rw [hpext']; exact List.elem_eq_true_of_mem hmem
    · apply List.mem_append_right
      simp
    · apply List.mem_append_right
      simp

/-- The photo loop of one issue: invariant preserved, files only appended,
and the collected details match the processed photos pairwise. -/
theorem exportPhotoFold_spec (issueId : String) :
    ∀ (pps : List (Nat × PhotoRef)) (a : PhotoAcc), PhotoInv a →
      PhotoInv (pps.foldl (fun x ip => exportPhoto issueId ip.1 x ip.2) a) ∧
      (∃ tail, (pps.foldl (fun x ip => exportPhoto issueId ip.1 x ip.2) a).files
        = a.files ++ tail) ∧
      (∃ ds, (pps.foldl (fun x ip => exportPhoto issueId ip.1 x ip.2) a).details
          = a.details ++ ds ∧
        List.Forall₂
          (photoDetailMatches
            (pps.foldl (fun x ip => exportPhoto issueId ip.1 x ip.2) a).files)
          (pps.map Prod.snd) ds) := by
  intro pps
  induction pps with
  | nil =>
    intro a h
    exact ⟨h, ⟨[], by simp⟩, ⟨[], by simp, by constructor⟩⟩
  | cons ip rest ih =>
    intro a h
    obtain ⟨h1, ⟨tail1, hf1⟩, ⟨d, hd, hmatch⟩⟩ := exportPhoto_spec issueId ip.1 a ip.2 h
    obtain ⟨h2, ⟨tail2, hf2⟩, ⟨ds, hds, hmatches⟩⟩ :=
      ih (exportPhoto issueId ip.1 a ip.2) h1
    rw [List.foldl_cons]
    refine ⟨h2, ⟨tail1 ++ tail2, ?_⟩, ⟨d :: ds, ?_, ?_⟩⟩
    · rw [hf2, hf1, List.append_assoc]
    · rw [hds, hd, List.append_assoc]
      rfl
    · rw [List.map_cons]
      constructor
      · rw [hf2]
        exact photoDetailMatches_mono hmatch
      · exact hmatches

/-- Export of one issue: invariant preserved, files only appended, and the
appended manifest entry exports the issue. -/
theorem exportIssue_spec (st : Store) (roomName : String) (acc : ExpState)
    (issue : Issue) (h : ExpInv acc) :
    ExpInv (exportIssue st roomName acc issue) ∧
    (∃ tail, (exportIssue st roomName acc issue).files = acc.files ++ tail) ∧
    (∃ ds, (exportIssue st roomName acc issue).entries
        = acc.entries ++ [createIssueExportData issue roomName ds] ∧
      List.Forall₂ (photoDetailMatches (exportIssue st roomName acc issue).files)
        (getPhotosByIssue st issue.id) ds) := by
  have h0 : PhotoInv { used := acc.used, files := acc.files, details := [] } :=
    ⟨h.1, h.2⟩
  obtain ⟨hInv, ⟨tail, hfiles⟩, ⟨ds, hds, hmatch⟩⟩ :=
    exportPhotoFold_spec issue.id (getPhotosByIssue st issue.id).enum
      { used := acc.used, files := acc.files, details := [] } h0
  have henum : (getPhotosByIssue st issue.id).enum.map Prod.snd
      = getPhotosByIssue st issue.id := List.enumFrom_map_snd 0 _
  rw [henum] at hmatch
  simp only [List.nil_append] at hds
  rw [exportIssue]
  exact ⟨⟨hInv.1, hInv.2⟩, ⟨tail, hfiles⟩, ⟨ds, by rw [hds], hmatch⟩⟩

/-! ### Grouping by room -/

theorem mapGet_append_single (gs : List (String × β)) (k : String) (v : β) :
    ∀ s, mapGet (gs ++ [(k, v)]) s = if k = s then some v else mapGet gs s := by
  intro s
  induction gs with
  | nil => simp [mapGet]
  | cons g rest ih =>
    rw [List.cons_append, mapGet, ih, mapGet]
    by_cases hk : k = s
    · simp [hk]
    · simp [hk]

theorem mapGet_modify (f : List Issue → List Issue) (key : String) :
    ∀ (gs : List (String × List Issue)) (s : String),
      mapGet (gs.map (fun g => if g.1 = key then (g.1, f g.2) else g)) s
        = if s = key then (mapGet gs s).map f else mapGet gs s := by
  intro gs
  induction gs with
  | nil => intro s; simp [mapGet]
  | cons g rest ih =>
    intro s
    rw [List.map_cons, mapGet, ih s, mapGet]
    by_cases hs : s = key
    · subst hs
      by_cases hg : g.1 = s
      · simp only [hg, if_pos]
        cases mapGet rest s <;> simp [hg]
      · simp only [hg, if_neg, if_false, if_pos rfl]
        cases mapGet rest s <;> simp [hg]
    · by_cases hg : g.1 = key
      · simp only [hg, if_pos, if_neg hs]
        cases mapGet rest s with
        | none => simp [if_neg hs, hg, show ¬ (key = s) from fun h => hs h.symm]
        | some v => simp
      · simp only [hg, if_neg, if_false, if_neg hs]

theorem groupInsert_fst (gs : List (String × List Issue)) (i : Issue) :
    (groupInsert gs i).map Prod.fst
      = if i.roomSlug ∈ gs.map Prod.fst then gs.map Prod.fst
        else gs.map Prod.fst ++ [i.roomSlug] := by
  rw [groupInsert]
  by_cases hmem : i.roomSlug ∈ gs.map Prod.fst
  · have hany : gs.any (fun g => decide (g.1 = i.roomSlug)) = true := by
      rw [List.any_eq_true]
      rcases List.mem_map.mp hmem with ⟨g, hg, hfst⟩
      exact ⟨g, hg, by simp [hfst]⟩
    rw [if_pos hany, if_pos hmem, List.map_map]
    apply List.map_congr_left
    intro g _
    by_cases hg : g.1 = i.roomSlug <;> simp [hg]
  · have hany : ¬ (gs.any (fun g => decide (g.1 = i.roomSlug)) = true) := by
      rw [List.any_eq_true]
      rintro ⟨g, hg, hfst⟩
      simp only [decide_eq_true_eq] at hfst
      exact hmem (List.mem_map.mpr ⟨g, hg, hfst⟩)
    rw [if_neg hany, if_neg hmem]
    simp

theorem groupInsert_inv (gs : List (String × List Issue)) (processed : List Issue)
    (i : Issue) (h : GroupInv gs processed) :
    GroupInv (groupInsert gs i) (processed ++ [i]) := by
  obtain ⟨hnd, hiff, hget⟩ := h
  have hfst := groupInsert_fst gs i
  by_cases hmem : i.roomSlug ∈ gs.map Prod.fst
  · rw [if_pos hmem] at hfst
    refine ⟨hfst ▸ hnd, ?_, ?_⟩
    · intro s
      rw [hfst]
      rw [hiff s]
      simp only [List.map_append, List.map_cons, List.map_nil, List.mem_append]
      constructor
      · exact fun hs => Or.inl hs
      · rintro (hs | hs)
        · exact hs
        · rcases List.mem_singleton.mp hs with rfl
          exact (hiff i.roomSlug).mp hmem
    · intro s hs
      rw [hfst] at hs
      have hstep : groupInsert gs i
          = gs.map (fun g => if g.1 = i.roomSlug then (g.1, g.2 ++ [i]) else g) := by
        rw [groupInsert, if_pos]
        rw [List.any_eq_true]
        rcases List.mem_map.mp hmem with ⟨g, hg, hfst'⟩
        exact ⟨g, hg, by simp [hfst']⟩
      rw [hstep, mapGet_modify (fun l => l ++ [i]) i.roomSlug gs s]
      by_cases hsl : s = i.roomSlug
      · subst hsl
        rw [if_pos rfl, hget _ hs]
        simp [List.filter_append]
      · rw [if_neg hsl, hget s hs]
        have hone : List.filter (fun j => decide (j.roomSlug = s)) [i] = [] := by
          simp only [List.filter_cons, List.filter_nil, decide_eq_true_eq]
          rw [if_neg (fun h => hsl (h.symm))]
        rw [List.filter_append, hone, List.append_nil]
  · rw [if_neg hmem] at hfst
    have hstep : groupInsert gs i = gs ++ [(i.roomSlug, [i])] := by
      rw [groupInsert, if_neg]
      rw [List.any_eq_true]
      rintro ⟨g, hg, hfst'⟩
      simp only [decide_eq_true_eq] at hfst'
      exact hmem (List.mem_map.mpr ⟨g, hg, hfst'⟩)
    refine ⟨?_, ?_, ?_⟩
    · rw [hfst]
      simp only [List.nodup_append, List.nodup_cons, List.not_mem_nil,
        not_false_iff, List.nodup_nil, and_true, true_and, List.disjoint_singleton]
      exact ⟨hnd, hmem⟩
    · intro s
      rw [hfst]
      simp only [List.map_append, List.map_cons, List.map_nil, List.mem_append,
        List.mem_singleton]
      rw [hiff s]
    · intro s hs
      rw [hstep, mapGet_append_single]
      by_cases hsl : i.roomSlug = s
      · subst hsl
        rw [if_pos rfl]
        have hnotin : i.roomSlug ∉ processed.map Issue.roomSlug :=
          fun hc => hmem ((hiff _).mpr hc)
        have hfilter :
            processed.filter (fun j => decide (j.roomSlug = i.roomSlug)) = [] := by
          rw [List.filter_eq_nil_iff]
          intro j hj
          simp only [decide_eq_true_eq]
          intro hc
          exact hnotin (List.mem_map.mpr ⟨j, hj, hc⟩)
        rw [List.filter_append, hfilter]
        simp [List.filter_cons]
      · rw [if_neg hsl]
        have hs' : s ∈ gs.map Prod.fst := by
          rw [hfst] at hs
          rcases List.mem_append.mp hs with h1 | h1
          · exact h1
          · exact absurd (List.mem_singleton.mp h1).symm hsl
        rw [hget s hs', List.filter_append]
        have hone : List.filter (fun j => decide (j.roomSlug = s)) [i] = [] := by
          simp only [List.filter_cons, List.filter_nil, decide_eq_true_eq]
          rw [if_neg hsl]
        rw [hone, List.append_nil]

theorem groupFold_inv :
    ∀ (issues : List Issue) (gs : List (String × List Issue))
      (processed : List Issue), GroupInv gs processed →
      GroupInv (issues.foldl groupInsert gs) (processed ++ issues) := by
  intro issues
  induction issues with
  | nil => intro gs processed h; simpa using h
  | cons i rest ih =>
    intro gs processed h
    have h1 := groupInsert_inv gs processed i h
    have h2 := ih (groupInsert gs i) (processed ++ [i]) h1
    rw [List.foldl_cons]
    rw [List.append_assoc] at h2
    simpa using h2

theorem groupByRoom_inv (issues : List Issue) :
    GroupInv (groupByRoom issues) issues := by
  have h0 : GroupInv [] [] := by
    refine ⟨List.nodup_nil, ?_, ?_⟩
    · intro s; simp
    · intro s hs; simp at hs
  have := groupFold_inv issues [] [] h0
  simpa [groupByRoom] using this

/-- Export of one room's issue list: invariant preserved, files appended,
and the appended entries export the room's issues pairwise. -/
theorem exportIssueFold_spec (st : Store) (roomName : String) :
    ∀ (ris : List Issue) (acc : ExpState), ExpInv acc →
      ExpInv (ris.foldl (exportIssue st roomName) acc) ∧
      (∃ tail, (ris.foldl (exportIssue st roomName) acc).files
        = acc.files ++ tail) ∧
      ∃ es, (ris.foldl (exportIssue st roomName) acc).entries
          = acc.entries ++ es ∧
        List.Forall₂ (EntryFor (ris.foldl (exportIssue st roomName) acc).files st)
          ris es := by
  intro ris
  induction ris with
  | nil =>
    intro acc h
    exact ⟨h, ⟨[], by simp⟩, ⟨[], by simp, by constructor⟩⟩
  | cons i rest ih =>
    intro acc h
    obtain ⟨h1, ⟨tail1, hf1⟩, ⟨ds, hent1, hmatch1⟩⟩ := exportIssue_spec st roomName acc i h
    obtain ⟨h2, ⟨tail2, hf2⟩, ⟨es, hent2, hmatch2⟩⟩ := ih (exportIssue st roomName acc i) h1
    rw [List.foldl_cons]
    refine ⟨h2, ⟨tail1 ++ tail2, by rw [hf2, hf1, List.append_assoc]⟩,
      ⟨createIssueExportData i roomName ds :: es, ?_, ?_⟩⟩
    · rw [hent2, hent1, List.append_assoc]
      rfl
    · constructor
      · refine ⟨roomName, ds, rfl, ?_⟩
        rw [hf2]
        exact hmatch1.imp fun _ _ hm => photoDetailMatches_mono hm
      · exact hmatch2

/-- Export over the sorted room slugs: the manifest entries accumulate, per
slug, exactly the issues of that slug, in order. -/
theorem exportSlugFold_spec (st : Store) (issues : List Issue)
    (grouped : List (String × List Issue)) (rn : String → String) :
    ∀ (slugs : List String) (acc : ExpState), ExpInv acc →
      (∀ slug ∈ slugs, mapGet grouped slug
        = some (issues.filter (fun i => decide (i.roomSlug = slug)))) →
      ExpInv (slugs.foldl (fun a slug =>
        ((mapGet grouped slug).getD []).foldl (exportIssue st (rn slug)) a) acc) ∧
      (∃ tail, (slugs.foldl (fun a slug =>
        ((mapGet grouped slug).getD []).foldl (exportIssue st (rn slug)) a) acc).files
        = acc.files ++ tail) ∧
      ∃ es, (slugs.foldl (fun a slug =>
          ((mapGet grouped slug).getD []).foldl (exportIssue st (rn slug)) a) acc).entries
          = acc.entries ++ es ∧
        List.Forall₂ (EntryFor (slugs.foldl (fun a slug =>
            ((mapGet grouped slug).getD []).foldl (exportIssue st (rn slug)) a) acc).files st)
          (slugs.flatMap (fun s => issues.filter (fun i => decide (i.roomSlug = s)))) es := by
  intro slugs
  induction slugs with
  | nil =>
    intro acc h _
    exact ⟨h, ⟨[], by simp⟩, ⟨[], by simp, by constructor⟩⟩
  | cons slug rest ih =>
    intro acc h hbuckets
    have hbucket := hbuckets slug (List.mem_cons_self _ _)
    obtain ⟨h1, ⟨tail1, hf1⟩, ⟨es1, hent1, hmatch1⟩⟩ :=
      exportIssueFold_spec st (rn slug) ((mapGet grouped slug).getD []) acc h
    obtain ⟨h2, ⟨tail2, hf2⟩, ⟨es2, hent2, hmatch2⟩⟩ :=
      ih (((mapGet grouped slug).getD []).foldl (exportIssue st (rn slug)) acc) h1
        (fun s hs => hbuckets s (List.mem_cons_of_mem _ hs))
    rw [List.foldl_cons]
    refine ⟨h2, ⟨tail1 ++ tail2, by rw [hf2, hf1, List.append_assoc]⟩,
      ⟨es1 ++ es2, ?_, ?_⟩⟩
    · rw [hent2, hent1, List.append_assoc]
    · rw [List.flatMap_cons]
      refine List.rel_append ?_ ?_
      · have : (mapGet grouped slug).getD []
            = issues.filter (fun i => decide (i.roomSlug = slug)) := by
          rw [hbucket]; rfl
        rw [← this]
        rw [hf2]
        exact hmatch1.imp fun _ _ hm => EntryFor_mono hm
      · exact hmatch2

/-- Master characterization of `generateZipBlob`: asset filenames are
unique in the archive; the manifest's issue array lists, for each room
slug in `roomOrder`, exactly the issues of that slug (in input order),
each correctly exported with matching photo details; and `roomOrder` is
the letter-key-sorted, duplicate-free list of the room slugs in use. -/
theorem generateZipBlob_spec (st : Store) (issues : List Issue)
    (rooms : List Room) (assignees : List Assignee) (date : IsoString) :
    (namesOf (generateZipBlob st issues rooms assignees date).files).Nodup ∧
    List.Forall₂ (EntryFor (generateZipBlob st issues rooms assignees date).files st)
      ((generateZipBlob st issues rooms assignees date).roomOrder.flatMap
        (fun s => issues.filter (fun i => decide (i.roomSlug = s))))
      (generateZipBlob st issues rooms assignees date).manifest.issueList ∧
    List.Pairwise (slugLe rooms)
      (generateZipBlob st issues rooms assignees date).roomOrder ∧
    (generateZipBlob st issues rooms assignees date).roomOrder.Nodup ∧
    (∀ s, s ∈ (generateZipBlob st issues rooms assignees date).roomOrder ↔
      s ∈ issues.map Issue.roomSlug) := by
  obtain ⟨hknd, hkiff, hget⟩ := groupByRoom_inv issues
  have hsorted := List.sorted_insertionSort (slugLe rooms)
    ((groupByRoom issues).map Prod.fst)
  have hperm := List.perm_insertionSort (slugLe rooms)
    ((groupByRoom issues).map Prod.fst)
  have hnd' : (List.insertionSort (slugLe rooms)
      ((groupByRoom issues).map Prod.fst)).Nodup := hperm.nodup_iff.mpr hknd
  have hmemiff : ∀ s, s ∈ List.insertionSort (slugLe rooms)
      ((groupByRoom issues).map Prod.fst) ↔ s ∈ issues.map Issue.roomSlug := by
    intro s
    rw [List.mem_insertionSort]
    exact hkiff s
  have h0 : ExpInv { used := [], files := [], entries := [] } :=
    ⟨List.nodup_nil, rfl⟩
  have hpre : ∀ slug ∈ List.insertionSort (slugLe rooms)
      ((groupByRoom issues).map Prod.fst),
      mapGet (groupByRoom issues) slug
        = some (issues.filter (fun i => decide (i.roomSlug = slug))) := by
    intro slug hslug
    exact hget slug ((List.mem_insertionSort (slugLe rooms)).mp hslug)
  obtain ⟨hInvF, ⟨tail, hfiles⟩, ⟨es, hent, hmatch⟩⟩ :=
    exportSlugFold_spec st issues (groupByRoom issues)
      (fun slug => jsOr ((mapGet (rooms.map fun r => (r.slug, r.name)) slug).getD "") slug)
      (List.insertionSort (slugLe rooms) ((groupByRoom issues).map Prod.fst))
      { used := [], files := [], entries := [] } h0 hpre
  simp only [generateZipBlob]
  refine ⟨?_, ?_, hsorted, hnd', hmemiff⟩
  · rw [hInvF.2]
    exact hInvF.1.map imgPath_inj
  · simp only [Manifest.issueList]
    simp only [List.nil_append] at hent
    rw [hent]
    exact hmatch

theorem forall₂_exists_left {R : α → β → Prop} :
    ∀ {l₁ : List α} {l₂ : List β}, List.Forall₂ R l₁ l₂ →
      ∀ b ∈ l₂, ∃ a ∈ l₁, R a b := by
  intro l₁ l₂ h
  induction h with
  | nil => intro b hb; simp at hb
  | cons hR _ ih =>
    intro b hb
    rcases List.mem_cons.mp hb with rfl | hb'
    · exact ⟨_, List.mem_cons_self _ _, hR⟩
    · obtain ⟨a, ha, hab⟩ := ih b hb'
      exact ⟨a, List.mem_cons_of_mem _ ha, hab⟩

theorem zipLookup_ne_none_of_mem {files : List (String × Blob)} {p : String}
    {b : Blob} (h : (p, b) ∈ files) : zipLookup files p ≠ none := by
  intro hnone
  rw [zipLookup] at hnone
  have hfind : List.find? (fun f => decide (f.1 = p)) files = none :=
    Option.map_eq_none'.mp hnone
  rw [List.find?_eq_none] at hfind
  have := hfind (p, b) h
  simp at this

theorem filterMap_modern (ds : List PhotoDetail) :
    List.filterMap (fun pe => match pe with
      | PhotoEntry.modern d => some d
      | PhotoEntry.legacy _ => none) (ds.map PhotoEntry.modern) = ds := by
  induction ds with
  | nil => rfl
  | cons d rest ih => simp only [List.map_cons, List.filterMap_cons, ih]

theorem modernDetails_create (i : Issue) (rn : String) (ds : List PhotoDetail) :
    (createIssueExportData i rn ds).modernDetails = ds := by
  simp only [IssueEntry.modernDetails, createIssueExportData, Option.getD_some]
  exact filterMap_modern ds

/-- **C5**: within one export every generated asset filename is unique (the
archive's name list is duplicate-free, so no asset overwrites another), the
collision loop never returns a name already used (appending `-{n}` suffixes
until free), and the path and thumbnail path recorded in each manifest
photo detail are names actually present in the archive. -/
theorem C5_collision_safety (st : Store) (issues : List Issue)
    (rooms : List Room) (assignees : List Assignee) (date : IsoString) :
    (namesOf (generateZipBlob st issues rooms assignees date).files).Nodup ∧
    (∀ used base ext, freeName used base ext ∉ used) ∧
    (∀ e ∈ (generateZipBlob st issues rooms assignees date).manifest.issueList,
      ∀ d ∈ e.modernDetails,
        zipLookup (generateZipBlob st issues rooms assignees date).files d.path ≠ none ∧
        zipLookup (generateZipBlob st issues rooms assignees date).files
          d.thumbnailPath ≠ none) := by
  obtain ⟨hnd, hmatch, _, _, _⟩ := generateZipBlob_spec st issues rooms assignees date
  refine ⟨hnd, freeName_not_mem, ?_⟩
  intro e he d hd
  obtain ⟨i, _, rn, ds, rfl, hds⟩ := forall₂_exists_left hmatch e he
  rw [modernDetails_create] at hd
  obtain ⟨p, _, hpd⟩ := forall₂_exists_left hds d hd
  obtain ⟨_, _, _, _, _, _, _, _, _, _, _, hfull, hthumb⟩ := hpd
  exact ⟨zipLookup_ne_none_of_mem hfull, zipLookup_ne_none_of_mem hthumb⟩

/-- Witness for **C5** at a concrete one-photo export. -/
theorem C5_witness :
    (namesOf exC5Export.files).Nodup ∧
    (freeName ["x-1.jpeg"] "x-1" "jpeg" ∉ (["x-1.jpeg"] : List String)) ∧
    zipLookup exC5Export.files "img/x-1.jpeg" ≠ none :=
  ⟨(C5_collision_safety exC5Store exC5Store.issues [] [] ⟨0⟩).1,
   (C5_collision_safety exC5Store exC5Store.issues [] [] ⟨0⟩).2.1 ["x-1.jpeg"] "x-1" "jpeg",
   ((C5_collision_safety exC5Store exC5Store.issues [] [] ⟨0⟩).2.2
      (createIssueExportData exC5Issue "r"
        [⟨"img/x-1.jpeg", "q1", "image/jpeg", 1, 1, "img/x-1-thumb.jpeg", some ⟨0⟩⟩])
      (by decide)
      ⟨"img/x-1.jpeg", "q1", "image/jpeg", 1, 1, "img/x-1-thumb.jpeg", some ⟨0⟩⟩
      (by decide)).1⟩

theorem forall₂_map_eq {R : α → β → Prop} (f : β → γ) (g : α → γ)
    (H : ∀ a b, R a b → f b = g a) :
    ∀ {l₁ : List α} {l₂ : List β}, List.Forall₂ R l₁ l₂ →
      l₂.map f = l₁.map g := by
  intro l₁ l₂ h
  induction h with
  | nil => rfl
  | cons hR _ ih => simp only [List.map_cons, ih, H _ _ hR]

/-- **C8** fails as stated: with two letterless rooms, the export orders
room sections by first appearance (all tied on the `'￿'` sentinel), not by
localized name comparison — room "b" (name "B") is emitted before room "a"
(name "A") although "A" sorts first by name. -/
theorem C8_counterexample :
    (generateZipBlob Store.empty exOrderIssues exLetterlessRooms [] ⟨0⟩).roomOrder
      = ["b", "a"] ∧ "A".data < "B".data := by
  constructor
  · decide
  · decide

/-- **C8** (amended): the manifest's issue array is grouped by room in the
order of `roomOrder`; `roomOrder` is duplicate-free, contains exactly the
room slugs in use, and is sorted by the room's letter key — the letter when
present, and the maximal `'￿'` sentinel otherwise (letterless rooms sort
after all lettered rooms in first-appearance order, not by localized name
comparison); the report's headings follow the same order. -/
theorem C8_report_grouping (st : Store) (issues : List Issue)
    (rooms : List Room) (assignees : List Assignee) (date : IsoString) :
    ((generateZipBlob st issues rooms assignees date).manifest.issueList.map
        (fun e => e.roomSlug))
      = (generateZipBlob st issues rooms assignees date).roomOrder.flatMap
          (fun s => (issues.filter (fun i => decide (i.roomSlug = s))).map
            (fun _ => s)) ∧
    List.Pairwise (slugLe rooms)
      (generateZipBlob st issues rooms assignees date).roomOrder ∧
    (generateZipBlob st issues rooms assignees date).roomOrder.Nodup ∧
    (∀ s, s ∈ (generateZipBlob st issues rooms assignees date).roomOrder ↔
      s ∈ issues.map Issue.roomSlug) ∧
    (generateZipBlob st issues rooms assignees date).reportHeadings.length
      = (generateZipBlob st issues rooms assignees date).roomOrder.length := by
  obtain ⟨_, hmatch, hpair, hnd, hiff⟩ :=
    generateZipBlob_spec st issues rooms assignees date
  refine ⟨?_, hpair, hnd, hiff, ?_⟩
  · have hmap := forall₂_map_eq (fun e : IssueEntry => e.roomSlug) Issue.roomSlug
      (fun i e hR => by obtain ⟨rn, ds, rfl, _⟩ := hR; rfl) hmatch
    rw [hmap, List.map_flatMap]
    apply List.flatMap_congr
    intro s _
    apply List.map_congr_left
    intro i hi
    exact of_decide_eq_true (List.mem_filter.mp hi).2
  · simp only [generateZipBlob, List.length_map]

/-! ### Import: keyed puts and the issue loop -/

theorem putByKey_any_iff (key : α → String) (l : List α) (x : α) :
    l.any (fun y => decide (key y = key x)) = true ↔ key x ∈ l.map key := by
  rw [List.any_eq_true]
  constructor
  · rintro ⟨y, hy, hk⟩
    simp only [decide_eq_true_eq] at hk
    exact List.mem_map.mpr ⟨y, hy, hk⟩
  · intro hm
    rcases List.mem_map.mp hm with ⟨y, hy, hk⟩
    exact ⟨y, hy, by simp [hk]⟩

theorem putByKey_keys (key : α → String) (l : List α) (x : α) :
    (putByKey key l x).map key
      = if key x ∈ l.map key then l.map key else l.map key ++ [key x] := by
  rw [putByKey]
  by_cases hmem : key x ∈ l.map key
  · rw [if_pos ((putByKey_any_iff key l x).mpr hmem), if_pos hmem, List.map_map]
    apply List.map_congr_left
    intro y _
    by_cases hk : key y = key x
    · simp [hk]
    · simp [hk]
  · rw [if_neg (fun h => hmem ((putByKey_any_iff key l x).mp h)), if_neg hmem]
    simp

theorem putByKey_length (key : α → String) (l : List α) (x : α) :
    (putByKey key l x).length
      = if key x ∈ l.map key then l.length else l.length + 1 := by
  have h1 : (putByKey key l x).length = ((putByKey key l x).map key).length :=
    (List.length_map _ _).symm
  rw [h1, putByKey_keys]
  by_cases hmem : key x ∈ l.map key
  · simp [hmem]
  · simp [hmem]

theorem putByKey_keys_incl (key : α → String) (l : List α) (x : α) (a : String)
    (h : a ∈ l.map key) : a ∈ (putByKey key l x).map key := by
  rw [putByKey_keys]
  by_cases hmem : key x ∈ l.map key
  · rw [if_pos hmem]; exact h
  · rw [if_neg hmem]; exact List.mem_append_left _ h

theorem putByKey_key_mem (key : α → String) (l : List α) (x : α) :
    key x ∈ (putByKey key l x).map key := by
  rw [putByKey_keys]
  by_cases hmem : key x ∈ l.map key
  · rw [if_pos hmem]; exact hmem
  · rw [if_neg hmem]
    exact List.mem_append_right _ (List.mem_singleton_self _)

/-- One photo-entry import step: the issue store and the config tier are
untouched, and the photo count advances exactly on valid entries. -/
theorem importPhotoEntry_spec (archive : Archive) (issueId : String) (now : Int)
    (acc : ImpPhotoAcc) (pd : PhotoEntry) :
    (importPhotoEntry archive issueId now acc pd).st.issues = acc.st.issues ∧
    (importPhotoEntry archive issueId now acc pd).st.roomsKV = acc.st.roomsKV ∧
    (importPhotoEntry archive issueId now acc pd).st.assigneesKV = acc.st.assigneesKV ∧
    (importPhotoEntry archive issueId now acc pd).photoCount
      = acc.photoCount + (if validPhotoEntry archive pd then 1 else 0) := by
  simp only [importPhotoEntry]
  by_cases hpath : pd.path = ""
  · have : ¬ validPhotoEntry archive pd := fun hv => hv.1 hpath
    simp [hpath, this]
  · rw [if_neg hpath]
    by_cases hext : pathExt pd.path ≠ "" ∧ SAFE_EXTENSIONS.contains (pathExt pd.path)
    · rw [if_neg (by simpa using hext)]
      rcases hlook : zipLookup archive.files pd.path with _ | blob
      · have : ¬ validPhotoEntry archive pd := fun hv => hv.2.2 hlook
        simp [this]
      · have hvalid : validPhotoEntry archive pd := ⟨hpath, hext, by simp [hlook]⟩
        rw [if_pos hvalid]
        rcases pd with p | d
        · simp [savePhoto, freshUuid]
        · by_cases hid : d.id = ""
          · simp [savePhoto, freshUuid, hid]
          · simp [savePhoto, freshUuid, hid]
    · have : ¬ validPhotoEntry archive pd := fun hv => hext hv.2.1
      rw [if_pos (by simpa using hext), if_neg this]
      simp

/-- The photo loop of one issue entry: issue store and config untouched,
photo count advances by the number of valid photo entries. -/
theorem importPhotoFold_spec (archive : Archive) (issueId : String) (now : Int) :
    ∀ (pds : List PhotoEntry) (a : ImpPhotoAcc),
      (pds.foldl (importPhotoEntry archive issueId now) a).st.issues = a.st.issues ∧
      (pds.foldl (importPhotoEntry archive issueId now) a).st.roomsKV = a.st.roomsKV ∧
      (pds.foldl (importPhotoEntry archive issueId now) a).st.assigneesKV
        = a.st.assigneesKV ∧
      (pds.foldl (importPhotoEntry archive issueId now) a).photoCount
        = a.photoCount
          + pds.countP (fun pd => decide (validPhotoEntry archive pd)) := by
  intro pds
  induction pds with
  | nil => intro a; simp
  | cons pd rest ih =>
    intro a
    obtain ⟨h1, h2, h3, h4⟩ := importPhotoEntry_spec archive issueId now a pd
    obtain ⟨g1, g2, g3, g4⟩ := ih (importPhotoEntry archive issueId now a pd)
    rw [List.foldl_cons]
    refine ⟨g1.trans h1, g2.trans h2, g3.trans h3, ?_⟩
    rw [g4, h4, List.countP_cons]
    by_cases hv : validPhotoEntry archive pd
    · simp [hv]
      omega
    · simp [hv]

/-- One issue-entry import step: invalid entries are skipped outright;
a valid entry bumps the issue count, adds its valid photos, and
put-or-replaces one issue record carrying the entry's id. -/
theorem importIssueEntry_spec (archive : Archive) (now : Int) (acc : ImpAcc)
    (e : IssueEntry) :
    (¬ validIssueEntry e → importIssueEntry archive now acc e = acc) ∧
    (validIssueEntry e →
      (importIssueEntry archive now acc e).issueCount = acc.issueCount + 1 ∧
      (importIssueEntry archive now acc e).photoCount
        = acc.photoCount + entryPhotoCount archive e ∧
      (∃ rec : Issue, (importIssueEntry archive now acc e).st.issues
          = putByKey Issue.id acc.st.issues rec ∧ rec.id = e.id) ∧
      (importIssueEntry archive now acc e).st.roomsKV = acc.st.roomsKV ∧
      (importIssueEntry archive now acc e).st.assigneesKV = acc.st.assigneesKV) := by
  constructor
  · intro hinv
    have hskip : e.id = "" ∨ e.roomSlug = "" ∨ e.title = "" := by
      by_contra hc
      push_neg at hc
      exact hinv ⟨hc.1, hc.2.1, hc.2.2⟩
    rw [importIssueEntry, if_pos hskip]
  · intro hv
    have hskip : ¬ (e.id = "" ∨ e.roomSlug = "" ∨ e.title = "") := by
      rintro (h | h | h)
      · exact hv.1 h
      · exact hv.2.1 h
      · exact hv.2.2 h
    rw [importIssueEntry, if_neg hskip]
    rcases hph : e.photos with _ | pds
    · refine ⟨rfl, ?_, ?_, rfl, rfl⟩
      · simp [entryPhotoCount, photoEntriesOf, hph]
      · refine ⟨_, rfl, ?_⟩
        rfl
    · obtain ⟨h1, h2, h3, h4⟩ := importPhotoFold_spec archive e.id now pds
        { st := acc.st, photoIds := [], photoCount := 0 }
      refine ⟨rfl, ?_, ?_, ?_, ?_⟩
      · show acc.photoCount + _ = _
        rw [h4]
        simp [entryPhotoCount, photoEntriesOf, hph]
      · refine ⟨{ id := e.id,
                  code := if e.code = "" then none else some e.code,
                  roomSlug := e.roomSlug,
                  assigneeSlug := if e.assigneeSlug = "" then none
                                  else some e.assigneeSlug,
                  type := if e.type = "todo" then some .todo else some .reserve,
                  title := e.title,
                  description := e.description,
                  status := if e.status = "done" then Status.done
                            else Status.opened,
                  createdAt := (match e.createdAt with
                                | some t => t.ms
                                | none => now),
                  updatedAt := (match e.updatedAt with
                                | some t => t.ms
                                | none => now),
                  photos := (pds.foldl (importPhotoEntry archive e.id now)
                    { st := acc.st, photoIds := [], photoCount := 0 }).photoIds },
          ?_, rfl⟩
        show putByKey Issue.id _ _ = putByKey Issue.id acc.st.issues _
        rw [h1]
      · show (saveIssue _ _).roomsKV = _
        rw [saveIssue]
        exact h2
      · show (saveIssue _ _).assigneesKV = _
        rw [saveIssue]
        exact h3

/-- The issue loop of `importZip`: counts are exactly the valid entries and
their valid photos; the config tier is untouched; issue ids only accumulate
(every pre-existing id and every valid entry id is present afterwards); the
issue count never drops, and does not grow when every valid entry id was
already present. -/
theorem importIssuesFold_spec (archive : Archive) (now : Int) :
    ∀ (entries : List IssueEntry) (acc : ImpAcc),
      (entries.foldl (importIssueEntry archive now) acc).issueCount
        = acc.issueCount + entries.countP (fun e => decide (validIssueEntry e)) ∧
      (entries.foldl (importIssueEntry archive now) acc).photoCount
        = acc.photoCount + ((entries.filter (fun e => decide (validIssueEntry e))).map
            (entryPhotoCount archive)).sum ∧
      (entries.foldl (importIssueEntry archive now) acc).st.roomsKV
        = acc.st.roomsKV ∧
      (entries.foldl (importIssueEntry archive now) acc).st.assigneesKV
        = acc.st.assigneesKV ∧
      (∀ a, a ∈ acc.st.issues.map Issue.id →
        a ∈ (entries.foldl (importIssueEntry archive now) acc).st.issues.map Issue.id) ∧
      (∀ e ∈ entries, validIssueEntry e →
        e.id ∈ (entries.foldl (importIssueEntry archive now) acc).st.issues.map Issue.id) ∧
      acc.st.issues.length
        ≤ (entries.foldl (importIssueEntry archive now) acc).st.issues.length ∧
      ((∀ e ∈ entries, validIssueEntry e → e.id ∈ acc.st.issues.map Issue.id) →
        (entries.foldl (importIssueEntry archive now) acc).st.issues.length
          = acc.st.issues.length) := by
  intro entries
  induction entries with
  | nil =>
    intro acc
    refine ⟨by simp, by simp, rfl, rfl, fun a h => h, ?_, le_rfl, fun _ => rfl⟩
    intro e he
    simp at he
  | cons e rest ih =>
    intro acc
    obtain ⟨hskip, hvalid⟩ := importIssueEntry_spec archive now acc e
    by_cases hv : validIssueEntry e
    · obtain ⟨hc1, hc2, ⟨rec, hrec, hrecid⟩, hr1, hr2⟩ := hvalid hv
      obtain ⟨g1, g2, g3, g4, g5, g6, g7, g8⟩ := ih (importIssueEntry archive now acc e)
      rw [List.foldl_cons]
      refine ⟨?_, ?_, g3.trans hr1, g4.trans hr2, ?_, ?_, ?_, ?_⟩
      · rw [g1, hc1, List.countP_cons, if_pos (by simp [hv])]
        omega
      · rw [g2, hc2, List.filter_cons, if_pos (by simp [hv])]
        simp only [List.map_cons, List.sum_cons]
        omega
      · intro a ha
        apply g5
        rw [hrec]
        exact putByKey_keys_incl Issue.id acc.st.issues rec a ha
      · intro e' he' hv'
        rcases List.mem_cons.mp he' with rfl | hmem
        · apply g5
          rw [hrec, ← hrecid]
          exact putByKey_key_mem Issue.id acc.st.issues rec
        · exact g6 e' hmem hv'
      · calc acc.st.issues.length
            ≤ (importIssueEntry archive now acc e).st.issues.length := by
              rw [hrec, putByKey_length]
              split <;> omega
          _ ≤ _ := g7
      · intro hall
        have hidin : e.id ∈ acc.st.issues.map Issue.id :=
          hall e (List.mem_cons_self _ _) hv
        have hlen1 : (importIssueEntry archive now acc e).st.issues.length
            = acc.st.issues.length := by
          rw [hrec, putByKey_length, if_pos (hrecid ▸ hidin)]
        rw [← hlen1]
        apply g8
        intro e' he' hv'
        have := hall e' (List.mem_cons_of_mem _ he') hv'
        rw [hrec]
        exact putByKey_keys_incl Issue.id acc.st.issues rec e'.id this
    · rw [List.foldl_cons, hskip hv]
      obtain ⟨g1, g2, g3, g4, g5, g6, g7, g8⟩ := ih acc
      refine ⟨?_, ?_, g3, g4, g5, ?_, g7, ?_⟩
      · rw [g1, List.countP_cons]
        simp [hv]
      · rw [g2, List.filter_cons]
        simp [hv]
      · intro e' he' hv'
        rcases List.mem_cons.mp he' with rfl | hmem
        · exact absurd hv' hv
        · exact g6 e' hmem hv'
      · intro hall
        apply g8
        intro e' he' hv'
        exact hall e' (List.mem_cons_of_mem _ he') hv'

/-! ### Import: rooms and assignees reconciliation -/

theorem mergeRoomsAux (existing : List Room) :
    ∀ (valid pre : List Room) (n : Nat),
      valid.foldl (fun p r => if r.slug ∈ existing.map Room.slug then p
        else (p.1 ++ [r], p.2 + 1)) (pre, n)
      = (pre ++ newRooms existing valid, n + (newRooms existing valid).length) := by
  intro valid
  induction valid with
  | nil => intro pre n; simp [newRooms]
  | cons r rest ih =>
    intro pre n
    rw [List.foldl_cons]
    by_cases hmem : r.slug ∈ existing.map Room.slug
    · rw [if_pos hmem]
      rw [ih pre n]
      have : newRooms existing (r :: rest) = newRooms existing rest := by
        rw [newRooms, List.filter_cons, if_neg (by simp [hmem])]
        rfl
      rw [this]
    · rw [if_neg hmem]
      rw [ih (pre ++ [r]) (n + 1)]
      have : newRooms existing (r :: rest) = r :: newRooms existing rest := by
        rw [newRooms, List.filter_cons, if_pos (by simp [hmem])]
        rfl
      rw [this]
      simp [List.append_assoc]
      omega

theorem mergeRooms_eq (existing valid : List Room) :
    mergeRooms existing valid
      = (existing ++ newRooms existing valid, (newRooms existing valid).length) := by
  rw [mergeRooms]
  have := mergeRoomsAux existing valid existing 0
  simpa using this

theorem mergeAssigneesAux (existing : List Assignee) :
    ∀ (valid pre : List Assignee) (n : Nat),
      valid.foldl (fun p a => if a.slug ∈ existing.map Assignee.slug then p
        else (p.1 ++ [a], p.2 + 1)) (pre, n)
      = (pre ++ newAssignees existing valid,
         n + (newAssignees existing valid).length) := by
  intro valid
  induction valid with
  | nil => intro pre n; simp [newAssignees]
  | cons a rest ih =>
    intro pre n
    rw [List.foldl_cons]
    by_cases hmem : a.slug ∈ existing.map Assignee.slug
    · rw [if_pos hmem]
      rw [ih pre n]
      have : newAssignees existing (a :: rest) = newAssignees existing rest := by
        rw [newAssignees, List.filter_cons, if_neg (by simp [hmem])]
        rfl
      rw [this]
    · rw [if_neg hmem]
      rw [ih (pre ++ [a]) (n + 1)]
      have : newAssignees existing (a :: rest) = a :: newAssignees existing rest := by
        rw [newAssignees, List.filter_cons, if_pos (by simp [hmem])]
        rfl
      rw [this]
      simp [List.append_assoc]
      omega

theorem mergeAssignees_eq (existing valid : List Assignee) :
    mergeAssignees existing valid
      = (existing ++ newAssignees existing valid,
         (newAssignees existing valid).length) := by
  rw [mergeAssignees]
  have := mergeAssigneesAux existing valid existing 0
  simpa using this

/-- Any successful rooms step only touches the `rooms` config item. -/
theorem importRooms_ok_inv (st : Store) (m : Manifest) (mode : ImportMode)
    (st2 : Store) (n : Nat) (h : importRooms st m mode = .ok (st2, n)) :
    st2.issues = st.issues ∧ st2.photos = st.photos ∧
    st2.assigneesKV = st.assigneesKV ∧ st2.lastRoomSlug = st.lastRoomSlug ∧
    st2.uuidSeed = st.uuidSeed := by
  rw [importRooms] at h
  rcases hr : m.rooms with _ | _ | entries <;> rw [hr] at h <;> dsimp only at h
  · injection h with h'
    injection h' with h1 h2
    subst h1
    exact ⟨rfl, rfl, rfl, rfl, rfl⟩
  · injection h with h'
    injection h' with h1 h2
    subst h1
    exact ⟨rfl, rfl, rfl, rfl, rfl⟩
  · by_cases hlen : (entries.filterMap RoomEntry.valid?).length > 0
    · rw [if_pos hlen] at h
      cases mode with
      | replace =>
        injection h with h'
        injection h' with h1 h2
        subst h1
        exact ⟨rfl, rfl, rfl, rfl, rfl⟩
      | merge =>
        rcases hkv : st.roomsKV with _ | okv <;> rw [hkv] at h
        · injection h with h'
          injection h' with h1 h2
          subst h1
          exact ⟨rfl, rfl, rfl, rfl, rfl⟩
        · rcases okv with _ | l
          · exact absurd h (by simp)
          · injection h with h'
            injection h' with h1 h2
            subst h1
            exact ⟨rfl, rfl, rfl, rfl, rfl⟩
    · rw [if_neg hlen] at h
      injection h with h'
      injection h' with h1 h2
      subst h1
      exact ⟨rfl, rfl, rfl, rfl, rfl⟩

/-- Any successful assignees step only touches the `assignees` item. -/
theorem importAssignees_ok_inv (st : Store) (m : Manifest) (mode : ImportMode)
    (st2 : Store) (n : Nat) (h : importAssignees st m mode = .ok (st2, n)) :
    st2.issues = st.issues ∧ st2.photos = st.photos ∧
    st2.roomsKV = st.roomsKV ∧ st2.lastRoomSlug = st.lastRoomSlug ∧
    st2.uuidSeed = st.uuidSeed := by
  rw [importAssignees] at h
  rcases hr : m.assignees with _ | _ | entries <;> rw [hr] at h <;> dsimp only at h
  · injection h with h'
    injection h' with h1 h2
    subst h1
    exact ⟨rfl, rfl, rfl, rfl, rfl⟩
  · injection h with h'
    injection h' with h1 h2
    subst h1
    exact ⟨rfl, rfl, rfl, rfl, rfl⟩
  · by_cases hlen : (entries.filterMap AssigneeEntry.valid?).length > 0
    · rw [if_pos hlen] at h
      cases mode with
      | replace =>
        injection h with h'
        injection h' with h1 h2
        subst h1
        exact ⟨rfl, rfl, rfl, rfl, rfl⟩
      | merge =>
        rcases hkv : st.assigneesKV with _ | okv <;> rw [hkv] at h
        · injection h with h'
          injection h' with h1 h2
          subst h1
          exact ⟨rfl, rfl, rfl, rfl, rfl⟩
        · rcases okv with _ | l
          · exact absurd h (by simp)
          · injection h with h'
            injection h' with h1 h2
            subst h1
            exact ⟨rfl, rfl, rfl, rfl, rfl⟩
    · rw [if_neg hlen] at h
      injection h with h'
      injection h' with h1 h2
      subst h1
      exact ⟨rfl, rfl, rfl, rfl, rfl⟩

/-- The rooms step always succeeds when the stored value is parseable. -/
theorem importRooms_ok_exists (st : Store) (m : Manifest) (mode : ImportMode)
    (hkv : st.roomsKV ≠ some none) :
    ∃ st2 n, importRooms st m mode = .ok (st2, n) := by
  rw [importRooms]
  rcases hr : m.rooms with _ | _ | entries <;> dsimp only
  · exact ⟨st, 0, rfl⟩
  · exact ⟨st, 0, rfl⟩
  · by_cases hlen : (entries.filterMap RoomEntry.valid?).length > 0
    · rw [if_pos hlen]
      cases mode with
      | replace => exact ⟨_, _, rfl⟩
      | merge =>
        rcases hk : st.roomsKV with _ | okv
        · exact ⟨_, _, rfl⟩
        · rcases okv with _ | l
          · exact absurd hk hkv
          · exact ⟨_, _, rfl⟩
    · rw [if_neg hlen]
      exact ⟨st, 0, rfl⟩

/-- The assignees step always succeeds when the stored value is parseable. -/
theorem importAssignees_ok_exists (st : Store) (m : Manifest) (mode : ImportMode)
    (hkv : st.assigneesKV ≠ some none) :
    ∃ st2 n, importAssignees st m mode = .ok (st2, n) := by
  rw [importAssignees]
  rcases hr : m.assignees with _ | _ | entries <;> dsimp only
  · exact ⟨st, 0, rfl⟩
  · exact ⟨st, 0, rfl⟩
  · by_cases hlen : (entries.filterMap AssigneeEntry.valid?).length > 0
    · rw [if_pos hlen]
      cases mode with
      | replace => exact ⟨_, _, rfl⟩
      | merge =>
        rcases hk : st.assigneesKV with _ | okv
        · exact ⟨_, _, rfl⟩
        · rcases okv with _ | l
          · exact absurd hk hkv
          · exact ⟨_, _, rfl⟩
    · rw [if_neg hlen]
      exact ⟨st, 0, rfl⟩

/-! ### Import: top-level decomposition -/

/-- Successful import, decomposed: with a present manifest, a well-formed
issues array, and parseable config items, `importZip` succeeds and its
counts and final issue ids are those of the issue loop. -/
theorem importZip_ok_of (st : Store) (archive : Archive) (mode : ImportMode)
    (now : Int) (m : Manifest) (entries : List IssueEntry)
    (hm : archive.manifest = some m) (he : m.issues = .arr entries)
    (hr : st.roomsKV ≠ some none) (ha : st.assigneesKV ≠ some none) :
    ∃ c st', importZip st archive mode now = .ok (c, st') ∧
      c.issueCount = entries.countP (fun e => decide (validIssueEntry e)) ∧
      c.photoCount = ((entries.filter (fun e => decide (validIssueEntry e))).map
        (entryPhotoCount archive)).sum ∧
      (∀ e ∈ entries, validIssueEntry e → e.id ∈ st'.issues.map Issue.id) := by
  have hst1r : (match mode with
      | ImportMode.replace => clearAllData st
      | ImportMode.merge => st).roomsKV ≠ some none := by
    cases mode
    · simp [clearAllData]
    · exact hr
  obtain ⟨st2, n2, hrooms⟩ := importRooms_ok_exists _ m mode hst1r
  have hst2a : st2.assigneesKV ≠ some none := by
    have := (importRooms_ok_inv _ m mode st2 n2 hrooms).2.2.1
    rw [this]
    cases mode
    · simp [clearAllData]
    · exact ha
  obtain ⟨st3, n3, hassign⟩ := importAssignees_ok_exists st2 m mode hst2a
  obtain ⟨g1, g2, _, _, _, g6, _, _⟩ := importIssuesFold_spec archive now entries
    { st := st3, issueCount := 0, photoCount := 0 }
  refine ⟨{ issueCount := (entries.foldl (importIssueEntry archive now)
              { st := st3, issueCount := 0, photoCount := 0 }).issueCount,
            photoCount := (entries.foldl (importIssueEntry archive now)
              { st := st3, issueCount := 0, photoCount := 0 }).photoCount,
            roomCount := n2, assigneeCount := n3 },
    (entries.foldl (importIssueEntry archive now)
        { st := st3, issueCount := 0, photoCount := 0 }).st, ?_, ?_, ?_, ?_⟩
  · rw [importZip.eq_def, hm]
    dsimp only
    rw [he]
    dsimp only
    rw [hrooms]
    dsimp only
    rw [hassign]
  · rw [g1]
    simp
  · rw [g2]
    simp
  · exact g6

/-- Inversion of a successful merge-mode import. -/
theorem importZip_merge_inv (st : Store) (archive : Archive) (now : Int)
    (c : ImportCounts) (st' : Store)
    (h : importZip st archive .merge now = .ok (c, st')) :
    ∃ m entries st2 st3,
      archive.manifest = some m ∧ m.issues = .arr entries ∧
      importRooms st m .merge = .ok (st2, c.roomCount) ∧
      importAssignees st2 m .merge = .ok (st3, c.assigneeCount) ∧
      st' = (entries.foldl (importIssueEntry archive now)
        { st := st3, issueCount := 0, photoCount := 0 }).st ∧
      c.issueCount = (entries.foldl (importIssueEntry archive now)
        { st := st3, issueCount := 0, photoCount := 0 }).issueCount ∧
      c.photoCount = (entries.foldl (importIssueEntry archive now)
        { st := st3, issueCount := 0, photoCount := 0 }).photoCount := by
  rw [importZip] at h
  rcases hm : archive.manifest with _ | m <;> rw [hm] at h <;> dsimp only at h
  · exact absurd h (by simp)
  · rcases he : m.issues with _ | _ | entries <;> rw [he] at h <;> dsimp only at h
    · exact absurd h (by simp)
    · exact absurd h (by simp)
    · rcases hrooms : importRooms st m .merge with e2 | p2 <;> rw [hrooms] at h
      · exact absurd h (by simp)
      · rcases p2 with ⟨st2, n2⟩
        dsimp only at h
        rcases hassign : importAssignees st2 m .merge with e3 | p3 <;> rw [hassign] at h
        · exact absurd h (by simp)
        · rcases p3 with ⟨st3, n3⟩
          dsimp only at h
          injection h with h'
          injection h' with hc hst
          refine ⟨m, entries, st2, st3, rfl, he, ?_, ?_, ?_, ?_, ?_⟩
          · rw [hrooms, ← hc]
          · rw [hassign, ← hc]
          · rw [← hst]
          · rw [← hc]
          · rw [← hc]

/-- **C6**: with a present manifest carrying a valid `issues` array (and a
store whose config items parse), `importZip` succeeds in both modes; issue
entries missing `id`, `roomSlug` or `title` and photo entries with a
disallowed extension or a missing asset are skipped without failing the
batch: the returned counts include exactly the valid entries, and every
valid entry's issue id is present in the resulting store. -/
theorem C6_skip_invalid_entries (st : Store) (archive : Archive)
    (mode : ImportMode) (now : Int) (m : Manifest) (entries : List IssueEntry)
    (hm : archive.manifest = some m) (he : m.issues = .arr entries)
    (hr : st.roomsKV ≠ some none) (ha : st.assigneesKV ≠ some none) :
    ∃ c st', importZip st archive mode now = .ok (c, st') ∧
      c.issueCount = entries.countP (fun e => decide (validIssueEntry e)) ∧
      c.photoCount = ((entries.filter (fun e => decide (validIssueEntry e))).map
        (entryPhotoCount archive)).sum ∧
      (∀ e ∈ entries, validIssueEntry e → e.id ∈ st'.issues.map Issue.id) :=
  importZip_ok_of st archive mode now m entries hm he hr ha

/-- Witness for **C6**: a batch with one valid entry, one missing its
title, and one whose only photo has a disallowed `.svg` extension. -/
theorem C6_witness :
    ∃ c st', importZip Store.empty exC6Archive .merge 0 = .ok (c, st') ∧
      c.issueCount = (exC6Entries.countP (fun e => decide (validIssueEntry e))) ∧
      c.photoCount = ((exC6Entries.filter (fun e => decide (validIssueEntry e))).map
        (entryPhotoCount exC6Archive)).sum ∧
      (∀ e ∈ exC6Entries, validIssueEntry e → e.id ∈ st'.issues.map Issue.id) :=
  C6_skip_invalid_entries Store.empty exC6Archive .merge 0 _ exC6Entries rfl rfl
    (by decide) (by decide)

/-! ### Merge-mode slug reconciliation -/

theorem newRooms_slug_union (existing valid : List Room) (s : String) :
    s ∈ (existing ++ newRooms existing valid).map Room.slug
      ↔ s ∈ existing.map Room.slug ∨ s ∈ valid.map Room.slug := by
  rw [List.map_append, List.mem_append]
  constructor
  · rintro (h | h)
    · exact Or.inl h
    · rcases List.mem_map.mp h with ⟨r, hr, rfl⟩
      rw [newRooms] at hr
      exact Or.inr (List.mem_map.mpr ⟨r, (List.mem_filter.mp hr).1, rfl⟩)
  · rintro (h | h)
    · exact Or.inl h
    · rcases List.mem_map.mp h with ⟨r, hr, rfl⟩
      by_cases hmem : r.slug ∈ existing.map Room.slug
      · exact Or.inl hmem
      · refine Or.inr (List.mem_map.mpr ⟨r, ?_, rfl⟩)
        rw [newRooms, List.mem_filter]
        exact ⟨hr, by simpa using hmem⟩

theorem newRooms_nodup (existing valid : List Room)
    (hv : (valid.map Room.slug).Nodup) (he : (existing.map Room.slug).Nodup) :
    ((existing ++ newRooms existing valid).map Room.slug).Nodup := by
  rw [List.map_append, List.nodup_append]
  refine ⟨he, ?_, ?_⟩
  · rw [newRooms]
    exact hv.sublist (List.Sublist.map _ (List.filter_sublist _))
  · intro s hs hs'
    rcases List.mem_map.mp hs' with ⟨r, hr, rfl⟩
    rw [newRooms, List.mem_filter] at hr
    exact absurd hs (by simpa using hr.2)

theorem newRooms_nil_of_covered (L valid : List Room)
    (h : ∀ r ∈ valid, r.slug ∈ L.map Room.slug) : newRooms L valid = [] := by
  rw [newRooms, List.filter_eq_nil_iff]
  intro r hr
  simp [h r hr]

theorem newAssignees_slug_union (existing valid : List Assignee) (s : String) :
    s ∈ (existing ++ newAssignees existing valid).map Assignee.slug
      ↔ s ∈ existing.map Assignee.slug ∨ s ∈ valid.map Assignee.slug := by
  rw [List.map_append, List.mem_append]
  constructor
  · rintro (h | h)
    · exact Or.inl h
    · rcases List.mem_map.mp h with ⟨a, hr, rfl⟩
      rw [newAssignees] at hr
      exact Or.inr (List.mem_map.mpr ⟨a, (List.mem_filter.mp hr).1, rfl⟩)
  · rintro (h | h)
    · exact Or.inl h
    · rcases List.mem_map.mp h with ⟨a, hr, rfl⟩
      by_cases hmem : a.slug ∈ existing.map Assignee.slug
      · exact Or.inl hmem
      · refine Or.inr (List.mem_map.mpr ⟨a, ?_, rfl⟩)
        rw [newAssignees, List.mem_filter]
        exact ⟨hr, by simpa using hmem⟩

theorem newAssignees_nil_of_covered (L valid : List Assignee)
    (h : ∀ a ∈ valid, a.slug ∈ L.map Assignee.slug) :
    newAssignees L valid = [] := by
  rw [newAssignees, List.filter_eq_nil_iff]
  intro a ha
  simp [h a ha]

/-- The merge-mode rooms step, in closed form. -/
theorem importRooms_merge_arr (st : Store) (m : Manifest)
    (roomEntries : List RoomEntry) (hf : m.rooms = .arr roomEntries)
    (hkv : st.roomsKV ≠ some none) :
    importRooms st m .merge
      = if validRoomsOf roomEntries = [] then .ok (st, 0)
        else .ok ({ st with roomsKV := some (some (storedRooms st
                    ++ newRooms (storedRooms st) (validRoomsOf roomEntries))) },
                  (newRooms (storedRooms st) (validRoomsOf roomEntries)).length) := by
  rw [importRooms, hf]
  dsimp only
  by_cases hnil : validRoomsOf roomEntries = []
  · have hlen : ¬ (roomEntries.filterMap RoomEntry.valid?).length > 0 := by
      rw [validRoomsOf] at hnil
      simp [hnil]
    rw [if_neg hlen, if_pos hnil]
  · have hlen : (roomEntries.filterMap RoomEntry.valid?).length > 0 :=
      List.length_pos.mpr hnil
    rw [if_pos hlen, if_neg hnil]
    rcases hk : st.roomsKV with _ | okv
    · dsimp only
      have hst : storedRooms st = [] := by rw [storedRooms, hk]
      rw [mergeRooms_eq, hst]
      rfl
    · rcases okv with _ | l
      · exact absurd hk hkv
      · dsimp only
        have hst : storedRooms st = l := by rw [storedRooms, hk]
        rw [mergeRooms_eq, hst]
        rfl

/-- The merge-mode assignees step, in closed form. -/
theorem importAssignees_merge_arr (st : Store) (m : Manifest)
    (assigneeEntries : List AssigneeEntry) (hf : m.assignees = .arr assigneeEntries)
    (hkv : st.assigneesKV ≠ some none) :
    importAssignees st m .merge
      = if validAssigneesOf assigneeEntries = [] then .ok (st, 0)
        else .ok ({ st with assigneesKV := some (some (storedAssignees st
                    ++ newAssignees (storedAssignees st)
                        (validAssigneesOf assigneeEntries))) },
                  (newAssignees (storedAssignees st)
                    (validAssigneesOf assigneeEntries)).length) := by
  rw [importAssignees, hf]
  dsimp only
  by_cases hnil : validAssigneesOf assigneeEntries = []
  · have hlen : ¬ (assigneeEntries.filterMap AssigneeEntry.valid?).length > 0 := by
      rw [validAssigneesOf] at hnil
      simp [hnil]
    rw [if_neg hlen, if_pos hnil]
  · have hlen : (assigneeEntries.filterMap AssigneeEntry.valid?).length > 0 :=
      List.length_pos.mpr hnil
    rw [if_pos hlen, if_neg hnil]
    rcases hk : st.assigneesKV with _ | okv
    · dsimp only
      have hst : storedAssignees st = [] := by rw [storedAssignees, hk]
      rw [mergeAssignees_eq, hst]
      rfl
    · rcases okv with _ | l
      · exact absurd hk hkv
      · dsimp only
        have hst : storedAssignees st = l := by rw [storedAssignees, hk]
        rw [mergeAssignees_eq, hst]
        rfl

/-- The merge-mode rooms step, uniformly: the stored list gains exactly
the valid imported rooms whose slug was not already stored, and their
number is the reported count. -/
theorem importRooms_merge_spec (st : Store) (m : Manifest)
    (roomEntries : List RoomEntry) (hf : m.rooms = .arr roomEntries)
    (hkv : st.roomsKV ≠ some none) :
    ∃ st2, importRooms st m .merge
        = .ok (st2, (newRooms (storedRooms st) (validRoomsOf roomEntries)).length) ∧
      storedRooms st2 = storedRooms st
        ++ newRooms (storedRooms st) (validRoomsOf roomEntries) ∧
      st2.issues = st.issues ∧ st2.assigneesKV = st.assigneesKV ∧
      st2.roomsKV ≠ some none := by
  rw [importRooms_merge_arr st m roomEntries hf hkv]
  by_cases hnil : validRoomsOf roomEntries = []
  · rw [if_pos hnil, hnil]
    exact ⟨st, rfl, by simp [newRooms], rfl, rfl, hkv⟩
  · rw [if_neg hnil]
    exact ⟨_, rfl, rfl, rfl, rfl, by simp⟩

/-- The merge-mode assignees step, uniformly. -/
theorem importAssignees_merge_spec (st : Store) (m : Manifest)
    (assigneeEntries : List AssigneeEntry)
    (hf : m.assignees = .arr assigneeEntries)
    (hkv : st.assigneesKV ≠ some none) :
    ∃ st3, importAssignees st m .merge
        = .ok (st3, (newAssignees (storedAssignees st)
            (validAssigneesOf assigneeEntries)).length) ∧
      storedAssignees st3 = storedAssignees st
        ++ newAssignees (storedAssignees st) (validAssigneesOf assigneeEntries) ∧
      st3.issues = st.issues ∧ st3.roomsKV = st.roomsKV ∧
      st3.assigneesKV ≠ some none := by
  rw [importAssignees_merge_arr st m assigneeEntries hf hkv]
  by_cases hnil : validAssigneesOf assigneeEntries = []
  · rw [if_pos hnil, hnil]
    exact ⟨st, rfl, by simp [newAssignees], rfl, rfl, hkv⟩
  · rw [if_neg hnil]
    exact ⟨_, rfl, rfl, rfl, rfl, by simp⟩

/-- **C7** counterexample: an archive whose `rooms` array holds two valid
rooms sharing the slug `"a"`. Merge-importing it into an empty store
appends both (the existing-slug snapshot is computed once, before the
loop), reports `roomCount = 2`, and leaves a duplicated slug in storage —
refuting "no duplicate slugs introduced". -/
theorem C7_counterexample :
    ∃ st', importZip Store.empty exDupRoomsArchive .merge 0
        = .ok ({ issueCount := 0, photoCount := 0, roomCount := 2,
                 assigneeCount := 0 }, st') ∧
      (storedRooms st').map Room.slug = ["a", "a"] ∧
      ¬ ((storedRooms st').map Room.slug).Nodup := by
  refine ⟨_, rfl, rfl, by decide⟩

/-- **C7** (amended): in a merge-mode import, a valid imported room or
assignee is appended exactly when its slug is absent from the
pre-existing stored list (the snapshot of stored slugs is taken once, so
duplicate slugs inside one archive are each appended); the number of
appended ones is the reported `roomCount`/`assigneeCount`; the final
stored slug sets are the union of the pre-existing slugs and the
archive's valid slugs; and no duplicate slug is introduced provided the
archive's own valid slugs are duplicate-free. -/
theorem C7_merge_slug_union (st : Store) (archive : Archive) (now : Int)
    (m : Manifest) (entries : List IssueEntry) (roomEntries : List RoomEntry)
    (assigneeEntries : List AssigneeEntry)
    (hm : archive.manifest = some m) (he : m.issues = .arr entries)
    (hrf : m.rooms = .arr roomEntries)
    (haf : m.assignees = .arr assigneeEntries)
    (hr : st.roomsKV ≠ some none) (ha : st.assigneesKV ≠ some none) :
    ∃ c st', importZip st archive .merge now = .ok (c, st') ∧
      storedRooms st' = storedRooms st
        ++ newRooms (storedRooms st) (validRoomsOf roomEntries) ∧
      storedAssignees st' = storedAssignees st
        ++ newAssignees (storedAssignees st) (validAssigneesOf assigneeEntries) ∧
      c.roomCount = (newRooms (storedRooms st) (validRoomsOf roomEntries)).length ∧
      c.assigneeCount = (newAssignees (storedAssignees st)
        (validAssigneesOf assigneeEntries)).length ∧
      (∀ s, s ∈ (storedRooms st').map Room.slug
        ↔ s ∈ (storedRooms st).map Room.slug
          ∨ s ∈ (validRoomsOf roomEntries).map Room.slug) ∧
      (∀ s, s ∈ (storedAssignees st').map Assignee.slug
        ↔ s ∈ (storedAssignees st).map Assignee.slug
          ∨ s ∈ (validAssigneesOf assigneeEntries).map Assignee.slug) ∧
      (((validRoomsOf roomEntries).map Room.slug).Nodup →
        ((storedRooms st).map Room.slug).Nodup →
        ((storedRooms st').map Room.slug).Nodup) := by
  obtain ⟨st2, hrooms, hsr2, hi2, hakv2, hrkv2⟩ :=
    importRooms_merge_spec st m roomEntries hrf hr
  have hakv2' : st2.assigneesKV ≠ some none := by
    rw [hakv2]
    exact ha
  obtain ⟨st3, hassign, hsa3, hi3, hrkv3, hakv3⟩ :=
    importAssignees_merge_spec st2 m assigneeEntries haf hakv2'
  have hsa2 : storedAssignees st2 = storedAssignees st := by
    simp only [storedAssignees]
    rw [hakv2]
  rw [hsa2] at hsa3 hassign
  obtain ⟨g1, g2, g3, g4, g5, g6, g7, g8⟩ := importIssuesFold_spec archive now
    entries { st := st3, issueCount := 0, photoCount := 0 }
  have hsrf : storedRooms (entries.foldl (importIssueEntry archive now)
      { st := st3, issueCount := 0, photoCount := 0 }).st = storedRooms st2 := by
    simp only [storedRooms]
    rw [g3]
    dsimp only
    rw [hrkv3]
  have hsaf : storedAssignees (entries.foldl (importIssueEntry archive now)
      { st := st3, issueCount := 0, photoCount := 0 }).st
        = storedAssignees st3 := by
    simp only [storedAssignees]
    rw [g4]
  refine ⟨{ issueCount := (entries.foldl (importIssueEntry archive now)
              { st := st3, issueCount := 0, photoCount := 0 }).issueCount,
            photoCount := (entries.foldl (importIssueEntry archive now)
              { st := st3, issueCount := 0, photoCount := 0 }).photoCount,
            roomCount := (newRooms (storedRooms st)
              (validRoomsOf roomEntries)).length,
            assigneeCount := (newAssignees (storedAssignees st)
              (validAssigneesOf assigneeEntries)).length },
    (entries.foldl (importIssueEntry archive now)
        { st := st3, issueCount := 0, photoCount := 0 }).st,
    ?_, ?_, ?_, rfl, rfl, ?_, ?_, ?_⟩
  · rw [importZip.eq_def, hm]
    dsimp only
    rw [he]
    dsimp only
    rw [hrooms]
    dsimp only
    rw [hassign]
  · rw [hsrf, hsr2]
  · rw [hsaf, hsa3]
  · intro s
    rw [hsrf, hsr2]
    exact newRooms_slug_union (storedRooms st) (validRoomsOf roomEntries) s
  · intro s
    rw [hsaf, hsa3]
    exact newAssignees_slug_union (storedAssignees st)
      (validAssigneesOf assigneeEntries) s
  · intro hv hnd
    rw [hsrf, hsr2]
    exact newRooms_nodup (storedRooms st) (validRoomsOf roomEntries) hv hnd

/-- Witness for **C7**: merging an archive carrying one fresh room and
one fresh assignee into the empty store. -/
theorem C7_witness :
    ∃ c st', importZip Store.empty exC7Archive .merge 0 = .ok (c, st') ∧
      storedRooms st' = storedRooms Store.empty
        ++ newRooms (storedRooms Store.empty)
          (validRoomsOf [.obj "n" "New room" none]) ∧
      storedAssignees st' = storedAssignees Store.empty
        ++ newAssignees (storedAssignees Store.empty)
          (validAssigneesOf [.obj "p" "Pat"]) ∧
      c.roomCount = (newRooms (storedRooms Store.empty)
        (validRoomsOf [.obj "n" "New room" none])).length ∧
      c.assigneeCount = (newAssignees (storedAssignees Store.empty)
        (validAssigneesOf [.obj "p" "Pat"])).length ∧
      (∀ s, s ∈ (storedRooms st').map Room.slug
        ↔ s ∈ (storedRooms Store.empty).map Room.slug
          ∨ s ∈ (validRoomsOf [.obj "n" "New room" none]).map Room.slug) ∧
      (∀ s, s ∈ (storedAssignees st').map Assignee.slug
        ↔ s ∈ (storedAssignees Store.empty).map Assignee.slug
          ∨ s ∈ (validAssigneesOf [.obj "p" "Pat"]).map Assignee.slug) ∧
      (((validRoomsOf [.obj "n" "New room" none]).map Room.slug).Nodup →
        ((storedRooms Store.empty).map Room.slug).Nodup →
        ((storedRooms st').map Room.slug).Nodup) :=
  C7_merge_slug_union Store.empty exC7Archive 0 _ [] [.obj "n" "New room" none]
    [.obj "p" "Pat"] rfl rfl rfl rfl (by decide) (by decide)

theorem store_set_roomsKV_self (st : Store) :
    { st with roomsKV := st.roomsKV } = st := rfl

theorem store_set_assigneesKV_self (st : Store) :
    { st with assigneesKV := st.assigneesKV } = st := rfl

/-- Merge-mode rooms import is stable: once a merge rooms step has run,
running it again on any store holding the resulting rooms item appends
nothing and reports zero. -/
theorem importRooms_merge_stable (stA stB : Store) (m : Manifest)
    (st2 : Store) (n : Nat) (h : importRooms stA m .merge = .ok (st2, n))
    (hkv : stB.roomsKV = st2.roomsKV) :
    importRooms stB m .merge = .ok (stB, 0) := by
  rcases hf : m.rooms with _ | _ | roomEntries
  · rw [importRooms, hf]
  · rw [importRooms, hf]
  · by_cases hnil : validRoomsOf roomEntries = []
    · have hlen : ¬ (roomEntries.filterMap RoomEntry.valid?).length > 0 := by
        rw [validRoomsOf] at hnil
        simp [hnil]
      rw [importRooms, hf]
      dsimp only
      rw [if_neg hlen]
    · have hlen : (roomEntries.filterMap RoomEntry.valid?).length > 0 :=
        List.length_pos.mpr hnil
      have hkvA : stA.roomsKV ≠ some none := by
        intro heq
        rw [importRooms, hf] at h
        dsimp only at h
        rw [if_pos hlen, heq] at h
        dsimp only at h
        exact absurd h (by simp)
      rw [importRooms_merge_arr stA m roomEntries hf hkvA, if_neg hnil] at h
      injection h with h'
      injection h' with hst hn
      have hkvB : stB.roomsKV = some (some (storedRooms stA
          ++ newRooms (storedRooms stA) (validRoomsOf roomEntries))) := by
        rw [hkv, ← hst]
      have hBne : stB.roomsKV ≠ some none := by
        rw [hkvB]
        simp
      have hLB : storedRooms stB = storedRooms stA
          ++ newRooms (storedRooms stA) (validRoomsOf roomEntries) := by
        rw [storedRooms, hkvB]
      have hcov : newRooms (storedRooms stB) (validRoomsOf roomEntries) = [] := by
        apply newRooms_nil_of_covered
        intro r hr
        rw [hLB]
        exact (newRooms_slug_union _ _ _).mpr
          (Or.inr (List.mem_map.mpr ⟨r, hr, rfl⟩))
      rw [importRooms_merge_arr stB m roomEntries hf hBne, if_neg hnil, hcov,
        List.append_nil, hLB, ← hkvB, store_set_roomsKV_self]
      rfl

/-- Merge-mode assignees import is likewise stable. -/
theorem importAssignees_merge_stable (stA stB : Store) (m : Manifest)
    (st3 : Store) (n : Nat) (h : importAssignees stA m .merge = .ok (st3, n))
    (hkv : stB.assigneesKV = st3.assigneesKV) :
    importAssignees stB m .merge = .ok (stB, 0) := by
  rcases hf : m.assignees with _ | _ | assigneeEntries
  · rw [importAssignees, hf]
  · rw [importAssignees, hf]
  · by_cases hnil : validAssigneesOf assigneeEntries = []
    · have hlen : ¬ (assigneeEntries.filterMap AssigneeEntry.valid?).length > 0 := by
        rw [validAssigneesOf] at hnil
        simp [hnil]
      rw [importAssignees, hf]
      dsimp only
      rw [if_neg hlen]
    · have hlen : (assigneeEntries.filterMap AssigneeEntry.valid?).length > 0 :=
        List.length_pos.mpr hnil
      have hkvA : stA.assigneesKV ≠ some none := by
        intro heq
        rw [importAssignees, hf] at h
        dsimp only at h
        rw [if_pos hlen, heq] at h
        dsimp only at h
        exact absurd h (by simp)
      rw [importAssignees_merge_arr stA m assigneeEntries hf hkvA,
        if_neg hnil] at h
      injection h with h'
      injection h' with hst hn
      have hkvB : stB.assigneesKV = some (some (storedAssignees stA
          ++ newAssignees (storedAssignees stA)
              (validAssigneesOf assigneeEntries))) := by
        rw [hkv, ← hst]
      have hBne : stB.assigneesKV ≠ some none := by
        rw [hkvB]
        simp
      have hLB : storedAssignees stB = storedAssignees stA
          ++ newAssignees (storedAssignees stA)
              (validAssigneesOf assigneeEntries) := by
        rw [storedAssignees, hkvB]
      have hcov : newAssignees (storedAssignees stB)
          (validAssigneesOf assigneeEntries) = [] := by
        apply newAssignees_nil_of_covered
        intro a ha
        rw [hLB]
        exact (newAssignees_slug_union _ _ _).mpr
          (Or.inr (List.mem_map.mpr ⟨a, ha, rfl⟩))
      rw [importAssignees_merge_arr stB m assigneeEntries hf hBne, if_neg hnil,
        hcov, List.append_nil, hLB, ← hkvB, store_set_assigneesKV_self]
      rfl

/-- **C4** counterexample: merge-importing the same one-issue archive
twice yields a store with one issue, not `1 + 1 = 2` — the second import
reports `issueCount = 1` but overwrites by id instead of adding, so
"issue count = first-import count + second-import count" is refuted. -/
theorem C4_counterexample :
    importZip Store.empty exMergeArchive .merge 0
      = .ok ({ issueCount := 1, photoCount := 0, roomCount := 0,
               assigneeCount := 0 }, exMergeSt1) ∧
    importZip exMergeSt1 exMergeArchive .merge 0
      = .ok ({ issueCount := 1, photoCount := 0, roomCount := 0,
               assigneeCount := 0 }, exMergeSt2) ∧
    exMergeSt1.issues.length = 1 ∧ exMergeSt2.issues.length = 1 :=
  ⟨rfl, rfl, rfl, rfl⟩

/-- **C4** (amended): a merge-mode import never reduces the pre-existing
issue count; issues are written put-or-replace by id (an id collision
overwrites); and re-importing the same archive in merge mode leaves the
issue count, the rooms item and the assignees item unchanged, with zero
newly-added rooms and assignees reported (issue ids from the archive are
already present, so every write of the second pass is a replace). -/
theorem C4_merge_reimport (st : Store) (archive : Archive) (now now2 : Int)
    (c1 c2 : ImportCounts) (st1 st2 : Store) (issue : Issue)
    (h1 : importZip st archive .merge now = .ok (c1, st1))
    (h2 : importZip st1 archive .merge now2 = .ok (c2, st2)) :
    st.issues.length ≤ st1.issues.length ∧
    (saveIssue st issue).issues.length
      = (if issue.id ∈ st.issues.map Issue.id then st.issues.length
         else st.issues.length + 1) ∧
    st2.issues.length = st1.issues.length ∧
    st2.roomsKV = st1.roomsKV ∧ st2.assigneesKV = st1.assigneesKV ∧
    c2.roomCount = 0 ∧ c2.assigneeCount = 0 := by
  obtain ⟨m, entries, s2, s3, hm, he, hroA, hasA, hst1, _, _⟩ :=
    importZip_merge_inv st archive now c1 st1 h1
  obtain ⟨m', entries', s2', s3', hm', he', hroB, hasB, hst2, _, _⟩ :=
    importZip_merge_inv st1 archive now2 c2 st2 h2
  have hmm : m' = m := by
    rw [hm] at hm'
    exact (Option.some.inj hm').symm
  subst hmm
  have hee : entries' = entries := by
    rw [he] at he'
    injection he' with h0
    exact h0.symm
  subst hee
  obtain ⟨hi2, _, hak2, _, _⟩ :=
    importRooms_ok_inv st m' .merge s2 c1.roomCount hroA
  obtain ⟨hi3, _, hrk3, _, _⟩ :=
    importAssignees_ok_inv s2 m' .merge s3 c1.assigneeCount hasA
  obtain ⟨_, _, gA3, gA4, _, gA6, gA7, _⟩ := importIssuesFold_spec archive now
    entries' { st := s3, issueCount := 0, photoCount := 0 }
  have hids : ∀ e ∈ entries', validIssueEntry e →
      e.id ∈ st1.issues.map Issue.id := by
    intro e he1 hv
    rw [hst1]
    exact gA6 e he1 hv
  have hrk1 : st1.roomsKV = s2.roomsKV := by
    rw [hst1, gA3]
    exact hrk3
  have hak1 : st1.assigneesKV = s3.assigneesKV := by
    rw [hst1, gA4]
  have hstabr : importRooms st1 m' .merge = .ok (st1, 0) :=
    importRooms_merge_stable st st1 m' s2 c1.roomCount hroA hrk1
  have hstaba : importAssignees st1 m' .merge = .ok (st1, 0) :=
    importAssignees_merge_stable s2 st1 m' s3 c1.assigneeCount hasA hak1
  have hq : (Except.ok (s2', c2.roomCount)
      : Except ImportError (Store × Nat)) = .ok (st1, 0) := by
    rw [← hroB, hstabr]
  injection hq with hq'
  injection hq' with hs2' hc2r
  rw [hs2'] at hasB
  have hq2 : (Except.ok (s3', c2.assigneeCount)
      : Except ImportError (Store × Nat)) = .ok (st1, 0) := by
    rw [← hasB, hstaba]
  injection hq2 with hq2'
  injection hq2' with hs3' hc2a
  rw [hs3'] at hst2
  obtain ⟨_, _, gB3, gB4, _, _, _, gB8⟩ := importIssuesFold_spec archive now2
    entries' { st := st1, issueCount := 0, photoCount := 0 }
  refine ⟨?_, putByKey_length Issue.id st.issues issue, ?_, ?_, ?_, hc2r, hc2a⟩
  · rw [hst1]
    calc st.issues.length = s3.issues.length := by rw [hi3, hi2]
      _ ≤ _ := gA7
  · rw [hst2]
    exact gB8 hids
  · rw [hst2, gB3]
  · rw [hst2, gB4]

/-- Witness for **C4**: the double merge import of the one-issue archive
`exMergeArchive` into the empty store, plus a `saveIssue` on it. -/
theorem C4_witness :
    Store.empty.issues.length ≤ exMergeSt1.issues.length ∧
    (saveIssue Store.empty exRTIssue).issues.length
      = (if exRTIssue.id ∈ Store.empty.issues.map Issue.id
         then Store.empty.issues.length else Store.empty.issues.length + 1) ∧
    exMergeSt2.issues.length = exMergeSt1.issues.length ∧
    exMergeSt2.roomsKV = exMergeSt1.roomsKV ∧
    exMergeSt2.assigneesKV = exMergeSt1.assigneesKV ∧
    (1 : Nat) = 0 + 1 ∧ (0 : Nat) = 0 :=
  by
  have h := C4_merge_reimport Store.empty exMergeArchive 0 0
    { issueCount := 1, photoCount := 0, roomCount := 0, assigneeCount := 0 }
    { issueCount := 1, photoCount := 0, roomCount := 0, assigneeCount := 0 }
    exMergeSt1 exMergeSt2 exRTIssue rfl rfl
  exact ⟨h.1, h.2.1, h.2.2.1, h.2.2.2.1, h.2.2.2.2.1, by decide, by decide⟩

/-! ### Round trip: list plumbing -/

theorem zipLookup_nodup {files : List (String × Blob)} {p : String} {b : Blob}
    (hnd : (namesOf files).Nodup) (h : (p, b) ∈ files) :
    zipLookup files p = some b := by
  induction files with
  | nil => simp at h
  | cons f rest ih =>
    rw [namesOf, List.map_cons, List.nodup_cons] at hnd
    rcases List.mem_cons.mp h with rfl | h'
    · rw [zipLookup, List.find?_cons_of_pos _ (by simp)]
      rfl
    · have hne : f.1 ≠ p := by
        intro heq
        exact hnd.1 (heq ▸ List.mem_map.mpr ⟨(p, b), h', rfl⟩)
      rw [zipLookup, List.find?_cons_of_neg _ (by simp [hne])]
      exact ih hnd.2 h'

theorem putByKey_not_mem (key : α → String) (l : List α) (x : α)
    (h : key x ∉ l.map key) : putByKey key l x = l ++ [x] := by
  rw [putByKey, if_neg]
  intro hany
  exact h ((putByKey_any_iff key l x).mp hany)

theorem foldl_putByKey_append (key : α → String) :
    ∀ (ps l : List α), (∀ p ∈ ps, key p ∉ l.map key) → (ps.map key).Nodup →
      ps.foldl (putByKey key) l = l ++ ps := by
  intro ps
  induction ps with
  | nil => intro l _ _; simp
  | cons p rest ih =>
    intro l hdisj hnd
    rw [List.map_cons, List.nodup_cons] at hnd
    rw [List.foldl_cons, putByKey_not_mem key l p (hdisj p (by simp)),
      ih (l ++ [p]) ?_ hnd.2]
    · simp
    · intro q hq
      rw [List.map_append, List.mem_append]
      rintro (hl | hr)
      · exact hdisj q (List.mem_cons_of_mem _ hq) hl
      · simp only [List.map_cons, List.map_nil, List.mem_singleton] at hr
        exact hnd.1 (hr ▸ List.mem_map.mpr ⟨q, hq, rfl⟩)

theorem subperm_nodup {l₁ l₂ : List α} (h : List.Subperm l₁ l₂)
    (hnd : l₂.Nodup) : l₁.Nodup := by
  obtain ⟨l, hp, hs⟩ := h
  exact hp.nodup_iff.mp (hs.nodup hnd)

theorem flatMap_filter_perm (key : α → String) :
    ∀ (slugs : List String) (l : List α), slugs.Nodup →
      (∀ s, s ∈ slugs ↔ s ∈ l.map key) →
      (slugs.flatMap (fun s => l.filter (fun x => decide (key x = s)))).Perm l := by
  intro slugs
  induction slugs with
  | nil =>
    intro l _ hiff
    have : l = [] := by
      rcases l with _ | ⟨x, xs⟩
      · rfl
      · exact absurd ((hiff (key x)).mpr (by simp)) (by simp)
    rw [this]
    simp
  | cons s rest ih =>
    intro l hnd hiff
    rw [List.nodup_cons] at hnd
    have hsplit := List.filter_append_perm (fun x => decide (key x = s)) l
    have hbuckets : ∀ s' ∈ rest,
        l.filter (fun x => decide (key x = s'))
          = (l.filter (fun x => !decide (key x = s))).filter
              (fun x => decide (key x = s')) := by
      intro s' hs'
      rw [List.filter_filter]
      apply List.filter_congr
      intro x _
      by_cases hxk : key x = s'
      · have hs'ne : s' ≠ s := by
          intro heq
          exact hnd.1 (heq ▸ hs')
        have hne : key x ≠ s := by
          rw [hxk]
          exact hs'ne
        simp [hxk, hne, hs'ne]
      · simp [hxk]
    have hiff' : ∀ s', s' ∈ rest ↔
        s' ∈ (l.filter (fun x => !decide (key x = s))).map key := by
      intro s'
      constructor
      · intro hs'
        rcases List.mem_map.mp ((hiff s').mp (List.mem_cons_of_mem _ hs'))
          with ⟨x, hx, rfl⟩
        refine List.mem_map.mpr ⟨x, List.mem_filter.mpr ⟨hx, ?_⟩, rfl⟩
        simp only [Bool.not_eq_true', decide_eq_false_iff_not]
        intro heq
        exact hnd.1 (heq ▸ hs')
      · intro hs'
        rcases List.mem_map.mp hs' with ⟨x, hx, rfl⟩
        rcases List.mem_filter.mp hx with ⟨hxl, hxne⟩
        rcases List.mem_cons.mp ((hiff (key x)).mpr
          (List.mem_map.mpr ⟨x, hxl, rfl⟩)) with heq | hmem
        · exact absurd heq (by simpa using hxne)
        · exact hmem
    have hcongr : rest.flatMap (fun s' => l.filter (fun x => decide (key x = s')))
        = rest.flatMap (fun s' =>
            (l.filter (fun x => !decide (key x = s))).filter
              (fun x => decide (key x = s'))) := by
      apply List.flatMap_congr
      intro s' hs'
      exact hbuckets s' hs'
    rw [List.flatMap_cons, hcongr]
    exact ((ih _ hnd.2 hiff').append_left _).trans hsplit

theorem flatMap_filter_subperm (key : α → String) :
    ∀ (slugs : List String) (l : List α), slugs.Nodup →
      List.Subperm
        (slugs.flatMap (fun s => l.filter (fun x => decide (key x = s)))) l := by
  intro slugs
  induction slugs with
  | nil => intro l _; simp
  | cons s rest ih =>
    intro l hnd
    rw [List.nodup_cons] at hnd
    have hbuckets : ∀ s' ∈ rest,
        l.filter (fun x => decide (key x = s'))
          = (l.filter (fun x => !decide (key x = s))).filter
              (fun x => decide (key x = s')) := by
      intro s' hs'
      rw [List.filter_filter]
      apply List.filter_congr
      intro x _
      by_cases hxk : key x = s'
      · have hs'ne : s' ≠ s := by
          intro heq
          exact hnd.1 (heq ▸ hs')
        have hne : key x ≠ s := by
          rw [hxk]
          exact hs'ne
        simp [hxk, hne, hs'ne]
      · simp [hxk]
    have hcongr : rest.flatMap (fun s' => l.filter (fun x => decide (key x = s')))
        = rest.flatMap (fun s' =>
            (l.filter (fun x => !decide (key x = s))).filter
              (fun x => decide (key x = s'))) := by
      apply List.flatMap_congr
      intro s' hs'
      exact hbuckets s' hs'
    rw [List.flatMap_cons, hcongr]
    obtain ⟨w, hp, hs⟩ := ih (l.filter (fun x => !decide (key x = s))) hnd.2
    refine List.Subperm.trans
      ⟨l.filter (fun x => decide (key x = s)) ++ w, ?_, ?_⟩
      (List.filter_append_perm (fun x => decide (key x = s)) l).subperm
    · exact hp.append_left _
    · exact hs.append_left _

theorem find_map_of_nodup (f : Issue → Issue) (hid : ∀ x, (f x).id = x.id) :
    ∀ (l : List Issue), (l.map Issue.id).Nodup →
      ∀ i ∈ l, (l.map f).find? (fun x => decide (x.id = i.id)) = some (f i) := by
  intro l
  induction l with
  | nil => intro _ i hi; simp at hi
  | cons j rest ih =>
    intro hnd i hi
    rw [List.map_cons, List.nodup_cons] at hnd
    rcases List.mem_cons.mp hi with rfl | hi'
    · rw [List.map_cons, List.find?_cons_of_pos _ (by simp [hid])]
    · have hne : (f j).id ≠ i.id := by
        rw [hid]
        intro heq
        exact hnd.1 (heq ▸ List.mem_map.mpr ⟨i, hi', rfl⟩)
      rw [List.map_cons, List.find?_cons_of_neg _ (by simp [hne])]
      exact ih hnd.2 i hi'

theorem filter_flatMap_chunks (st : Store) :
    ∀ (l : List Issue), (l.map Issue.id).Nodup → ∀ i ∈ l,
      (l.flatMap (fun j => (getPhotosByIssue st j.id).map reimportedPhoto)).filter
          (fun p => decide (p.issueId = i.id))
        = (getPhotosByIssue st i.id).map reimportedPhoto := by
  intro l
  induction l with
  | nil => intro _ i hi; simp at hi
  | cons j rest ih =>
    intro hnd i hi
    rw [List.map_cons, List.nodup_cons] at hnd
    have hchunk : ∀ j' : Issue, ∀ q ∈ (getPhotosByIssue st j'.id).map reimportedPhoto,
        q.issueId = j'.id := by
      intro j' q hq
      rcases List.mem_map.mp hq with ⟨p, hp, rfl⟩
      have := (List.mem_filter.mp hp).2
      simpa [reimportedPhoto] using this
    rw [List.flatMap_cons, List.filter_append]
    rcases List.mem_cons.mp hi with rfl | hi'
    · have h1 : ((getPhotosByIssue st i.id).map reimportedPhoto).filter
          (fun p => decide (p.issueId = i.id))
            = (getPhotosByIssue st i.id).map reimportedPhoto := by
        apply List.filter_eq_self.mpr
        intro q hq
        simp [hchunk i q hq]
      have h2 : (rest.flatMap
          (fun j => (getPhotosByIssue st j.id).map reimportedPhoto)).filter
            (fun p => decide (p.issueId = i.id)) = [] := by
        apply List.filter_eq_nil_iff.mpr
        intro q hq
        rcases List.mem_flatMap.mp hq with ⟨j', hj', hqj⟩
        have := hchunk j' q hqj
        simp only [decide_eq_true_eq]
        rw [this]
        intro heq
        exact hnd.1 (heq ▸ List.mem_map.mpr ⟨j', hj', rfl⟩)
      rw [h1, h2, List.append_nil]
    · have h1 : ((getPhotosByIssue st j.id).map reimportedPhoto).filter
          (fun p => decide (p.issueId = i.id)) = [] := by
        apply List.filter_eq_nil_iff.mpr
        intro q hq
        have := hchunk j q hq
        simp only [decide_eq_true_eq]
        rw [this]
        intro heq
        exact hnd.1 (heq ▸ List.mem_map.mpr ⟨i, hi', rfl⟩)
      rw [h1, List.nil_append]
      exact ih hnd.2 i hi'

/-- Importing a manifest photo detail that the export produced for stored
photo `p` (with a usable id) recovers `p` up to the MIME-type fallback. -/
theorem importPhotoEntry_round (archive : Archive) (now : Int)
    (acc : ImpPhotoAcc) (p : PhotoRef) (d : PhotoDetail) (iid : String)
    (hnd : (namesOf archive.files).Nodup)
    (hm : photoDetailMatches archive.files p d) (hid : p.id ≠ "")
    (hiid : p.issueId = iid) :
    importPhotoEntry archive iid now acc (.modern d)
      = { st := savePhoto acc.st (reimportedPhoto p),
          photoIds := acc.photoIds ++ [p.id],
          photoCount := acc.photoCount + 1 } := by
  obtain ⟨h1, h2, h3, h4, h5, h6, h7, h8, h9, h10, h11, h12, h13⟩ := hm
  rw [importPhotoEntry]
  dsimp only [PhotoEntry.path]
  rw [if_neg h6, if_neg (not_not_intro ⟨h8, h9⟩), zipLookup_nodup hnd h12]
  dsimp only
  rw [h1, if_neg hid, if_pos h7, if_pos (And.intro h10 h11),
    zipLookup_nodup hnd h13, h2, h3, h4, h5]
  dsimp only
  rw [← hiid]
  rfl

/-- The photo loop of one issue entry over the details the export wrote
for the stored photos `ps`: every photo is re-saved (put-or-replace) as
its reimported form, in order, and counted. -/
theorem importPhotoFold_round (archive : Archive) (now : Int) (iid : String)
    (hnd : (namesOf archive.files).Nodup) :
    ∀ {ps : List PhotoRef} {ds : List PhotoDetail},
      List.Forall₂ (photoDetailMatches archive.files) ps ds →
      ∀ (acc : ImpPhotoAcc),
      (∀ p ∈ ps, p.id ≠ "" ∧ p.issueId = iid) →
      (ds.map PhotoEntry.modern).foldl (importPhotoEntry archive iid now) acc
        = { st := { acc.st with
                    photos := ps.foldl
                      (fun l p => putByKey PhotoRef.id l (reimportedPhoto p))
                      acc.st.photos },
            photoIds := acc.photoIds ++ ps.map PhotoRef.id,
            photoCount := acc.photoCount + ps.length } := by
  intro ps ds h
  induction h with
  | nil =>
    intro acc _
    simp
  | cons hpd hrest ih =>
    rename_i p d ps' ds'
    intro acc hside
    rw [List.map_cons, List.foldl_cons,
      importPhotoEntry_round archive now acc p d iid hnd hpd
        (hside p (List.mem_cons_self _ _)).1 (hside p (List.mem_cons_self _ _)).2,
      ih _ (fun q hq => hside q (List.mem_cons_of_mem _ hq))]
    simp [List.append_assoc, savePhoto]
    omega

/-- Importing the manifest entry the export wrote for issue `i` re-saves
the issue in its reimported form together with its photos. -/
theorem importIssueEntry_round (archive : Archive) (now : Int) (st : Store)
    (hnd : (namesOf archive.files).Nodup) (acc : ImpAcc) (i : Issue)
    (e : IssueEntry) (hef : EntryFor archive.files st i e)
    (hid : i.id ≠ "") (hroom : i.roomSlug ≠ "") (htitle : i.title ≠ "")
    (hcode : i.code ≠ some "") (hass : i.assigneeSlug ≠ some "")
    (hph : i.photos = (getPhotosByIssue st i.id).map PhotoRef.id)
    (hpids : ∀ p ∈ getPhotosByIssue st i.id, p.id ≠ "") :
    importIssueEntry archive now acc e
      = { st := { acc.st with
                  issues := putByKey Issue.id acc.st.issues (reimportedIssue i),
                  photos := (getPhotosByIssue st i.id).foldl
                    (fun l p => putByKey PhotoRef.id l (reimportedPhoto p))
                    acc.st.photos },
          issueCount := acc.issueCount + 1,
          photoCount := acc.photoCount + (getPhotosByIssue st i.id).length } := by
  obtain ⟨rn, ds, he, hmatch⟩ := hef
  subst he
  have hpair : ∀ p ∈ getPhotosByIssue st i.id, p.id ≠ "" ∧ p.issueId = i.id := by
    intro p hp
    refine ⟨hpids p hp, ?_⟩
    have := (List.mem_filter.mp hp).2
    exact of_decide_eq_true this
  rw [importIssueEntry]
  dsimp only [createIssueExportData]
  rw [if_neg (by
    intro hor
    rcases hor with h | h | h
    · exact hid h
    · exact hroom h
    · exact htitle h)]
  rw [importPhotoFold_round archive now i.id hnd hmatch _ hpair]
  dsimp only
  have hc : (if i.code.getD "" = "" then none else some (i.code.getD ""))
      = i.code := by
    rcases hc0 : i.code with _ | c
    · simp
    · have : c ≠ "" := by
        intro h
        exact hcode (by rw [hc0, h])
      simp [this]
  have ha : (if i.assigneeSlug.getD "" = "" then none
      else some (i.assigneeSlug.getD "")) = i.assigneeSlug := by
    rcases ha0 : i.assigneeSlug with _ | a
    · simp
    · have : a ≠ "" := by
        intro h
        exact hass (by rw [ha0, h])
      simp [this]
  have ht : (if (match i.type with
        | some IssueType.todo => "todo"
        | some IssueType.reserve => "reserve"
        | none => "reserve") = "todo"
      then some IssueType.todo else some IssueType.reserve)
      = some (i.type.getD IssueType.reserve) := by
    rcases i.type with _ | t
    · rw [if_neg (by decide)]
      rfl
    · cases t
      · rw [if_neg (by decide)]
        rfl
      · rw [if_pos rfl]
        rfl
  have hs : (if (match i.status with
        | Status.opened => "open"
        | Status.done => "done") = "done"
      then Status.done else Status.opened) = i.status := by
    cases i.status
    · rw [if_neg (by decide)]
    · rw [if_pos rfl]
  rw [hc, ha, ht, hs, List.nil_append, ← hph, Nat.zero_add]
  rfl

theorem map_id_reimported (ps : List PhotoRef) :
    (ps.map reimportedPhoto).map PhotoRef.id = ps.map PhotoRef.id := by
  rw [List.map_map]
  apply List.map_congr_left
  intro p _
  rfl

theorem foldl_putByKey_map_append (key : α → String) (f : β → α) :
    ∀ (ps : List β) (l : List α),
      (∀ p ∈ ps, key (f p) ∉ l.map key) → (((ps.map f).map key)).Nodup →
      ps.foldl (fun acc p => putByKey key acc (f p)) l = l ++ ps.map f := by
  intro ps
  induction ps with
  | nil => intro l _ _; simp
  | cons p rest ih =>
    intro l hdisj hnd
    rw [List.map_cons, List.map_cons, List.nodup_cons] at hnd
    rw [List.foldl_cons,
      putByKey_not_mem key l (f p) (hdisj p (List.mem_cons_self _ _)),
      ih (l ++ [f p]) ?_ hnd.2]
    · simp
    · intro q hq
      rw [List.map_append, List.mem_append]
      rintro (hl | hr)
      · exact hdisj q (List.mem_cons_of_mem _ hq) hl
      · simp only [List.map_cons, List.map_nil, List.mem_singleton] at hr
        exact hnd.1 (hr ▸ List.mem_map.mpr ⟨f q, List.mem_map.mpr ⟨q, hq, rfl⟩, rfl⟩)

theorem importEntriesFold_round (archive : Archive) (now : Int) (st : Store)
    (hnd : (namesOf archive.files).Nodup) :
    ∀ {issues : List Issue} {entries : List IssueEntry},
      List.Forall₂ (EntryFor archive.files st) issues entries →
      ∀ (acc : ImpAcc),
      (∀ i ∈ issues, i.id ≠ "" ∧ i.roomSlug ≠ "" ∧ i.title ≠ "" ∧
        i.code ≠ some "" ∧ i.assigneeSlug ≠ some "" ∧
        i.photos = (getPhotosByIssue st i.id).map PhotoRef.id ∧
        ∀ p ∈ getPhotosByIssue st i.id, p.id ≠ "") →
      (∀ i ∈ issues, i.id ∉ acc.st.issues.map Issue.id) →
      (issues.map Issue.id).Nodup →
      (∀ i ∈ issues, ∀ p ∈ getPhotosByIssue st i.id,
        p.id ∉ acc.st.photos.map PhotoRef.id) →
      (issues.flatMap (fun i => (getPhotosByIssue st i.id).map PhotoRef.id)).Nodup →
      (entries.foldl (importIssueEntry archive now) acc).st.issues
          = acc.st.issues ++ issues.map reimportedIssue ∧
      (entries.foldl (importIssueEntry archive now) acc).st.photos
          = acc.st.photos ++ issues.flatMap
              (fun i => (getPhotosByIssue st i.id).map reimportedPhoto) ∧
      (entries.foldl (importIssueEntry archive now) acc).issueCount
          = acc.issueCount + issues.length ∧
      (entries.foldl (importIssueEntry archive now) acc).photoCount
          = acc.photoCount
            + (issues.map (fun i => (getPhotosByIssue st i.id).length)).sum := by
  intro issues entries h
  induction h with
  | nil =>
    intro acc _ _ _ _ _
    exact ⟨by simp, by simp, by simp, by simp⟩
  | cons h1 hrest ih =>
    rename_i i e issues' entries'
    intro acc hside hII hIN hPP hPN
    obtain ⟨hid, hroom, htitle, hcode, hass, hph, hpid⟩ :=
      hside i (List.mem_cons_self _ _)
    rw [List.map_cons, List.nodup_cons] at hIN
    rw [List.flatMap_cons] at hPN
    rw [List.nodup_append] at hPN
    rw [List.foldl_cons, importIssueEntry_round archive now st hnd acc i e h1
      hid hroom htitle hcode hass hph hpid]
    rw [putByKey_not_mem Issue.id acc.st.issues (reimportedIssue i)
      (hII i (List.mem_cons_self _ _))]
    rw [foldl_putByKey_map_append PhotoRef.id reimportedPhoto
        (getPhotosByIssue st i.id) acc.st.photos ?hdisj ?hnodup]
    case hdisj =>
      intro q hq
      exact hPP i (List.mem_cons_self _ _) q hq
    case hnodup =>
      rw [map_id_reimported]
      exact hPN.1
    have hII2 : ∀ i' ∈ issues',
        i'.id ∉ (acc.st.issues ++ [reimportedIssue i]).map Issue.id := by
      intro i' hi'
      rw [List.map_append, List.mem_append]
      rintro (hl | hr)
      · exact hII i' (List.mem_cons_of_mem _ hi') hl
      · simp only [List.map_cons, List.map_nil, List.mem_singleton] at hr
        have hmem : i'.id ∈ issues'.map Issue.id := List.mem_map.mpr ⟨i', hi', rfl⟩
        rw [hr] at hmem
        exact hIN.1 hmem
    have hPP2 : ∀ i' ∈ issues', ∀ p ∈ getPhotosByIssue st i'.id,
        p.id ∉ (acc.st.photos
          ++ (getPhotosByIssue st i.id).map reimportedPhoto).map PhotoRef.id := by
      intro i' hi' p hp
      rw [List.map_append, List.mem_append]
      rintro (hl | hr)
      · exact hPP i' (List.mem_cons_of_mem _ hi') p hp hl
      · rw [map_id_reimported] at hr
        exact hPN.2.2 hr (List.mem_flatMap.mpr ⟨i', hi',
          List.mem_map.mpr ⟨p, hp, rfl⟩⟩)
    obtain ⟨g1, g2, g3, g4⟩ := ih
      { st := { acc.st with
                issues := acc.st.issues ++ [reimportedIssue i],
                photos := acc.st.photos
                  ++ (getPhotosByIssue st i.id).map reimportedPhoto },
        issueCount := acc.issueCount + 1,
        photoCount := acc.photoCount + (getPhotosByIssue st i.id).length }
      (fun i' hi' => hside i' (List.mem_cons_of_mem _ hi'))
      hII2 hIN.2 hPP2 hPN.2.1
    refine ⟨?_, ?_, ?_, ?_⟩
    · rw [g1]
      simp
    · rw [g2]
      simp
    · rw [g3]
      dsimp only
      simp
      omega
    · rw [g4]
      dsimp only
      simp
      omega

theorem generateZipBlob_issues_arr (st : Store) (issues : List Issue)
    (rooms : List Room) (assignees : List Assignee) (date : IsoString) :
    (generateZipBlob st issues rooms assignees date).manifest.issues
      = .arr (generateZipBlob st issues rooms assignees date).manifest.issueList := rfl

theorem subperm_map (f : α → β) {l₁ l₂ : List α} (h : List.Subperm l₁ l₂) :
    List.Subperm (l₁.map f) (l₂.map f) := by
  obtain ⟨w, hp, hs⟩ := h
  exact ⟨w.map f, hp.map f, hs.map f⟩

theorem map_id_flatMap_chunks (st : Store) (l : List Issue) :
    l.flatMap (fun i => (getPhotosByIssue st i.id).map PhotoRef.id)
      = ((l.map Issue.id).flatMap
          (fun s => st.photos.filter (fun p => decide (p.issueId = s)))).map
            PhotoRef.id := by
  induction l with
  | nil => rfl
  | cons i rest ih =>
    rw [List.flatMap_cons, List.map_cons, List.flatMap_cons, List.map_append, ih]
    rfl

theorem chunks_flatMap_map (st : Store) (l : List Issue) :
    l.flatMap (fun i => (getPhotosByIssue st i.id).map reimportedPhoto)
      = (l.flatMap (fun i => getPhotosByIssue st i.id)).map reimportedPhoto := by
  induction l with
  | nil => rfl
  | cons i rest ih =>
    rw [List.flatMap_cons, List.flatMap_cons, List.map_append, ih]

/-- **C1** (amended): under the snapshot invariants the application's own
mutators maintain (non-empty ids/room slugs/titles, no present-but-empty
`code`/`assigneeSlug`, photo lists consistent with the `issueId` index,
unique non-empty ids), exporting a snapshot and importing the archive in
replace mode succeeds and restores an equivalent snapshot: same issue
count, and for every issue the same field values — except that an absent
`type` comes back as `some .reserve` — with the photo list, per-issue
photo count, photo ids, and the full and thumbnail blobs all restored
byte-identically (a stored photo with an empty MIME type comes back as
`image/jpeg`). -/
theorem C1_round_trip (st st0 : Store) (rooms : List Room)
    (assignees : List Assignee) (date : IsoString) (now : Int)
    (hwf : WellFormedSnapshot st) :
    ∃ c st', importZip st0
        { manifest := some (generateZipBlob st st.issues rooms assignees date).manifest,
          files := (generateZipBlob st st.issues rooms assignees date).files }
        .replace now = .ok (c, st') ∧
      st'.issues.length = st.issues.length ∧
      c.issueCount = st.issues.length ∧
      (∀ i ∈ st.issues,
        getIssue st' i.id = some (reimportedIssue i) ∧
        getPhotosByIssue st' i.id = (getPhotosByIssue st i.id).map reimportedPhoto ∧
        (getPhotosByIssue st' i.id).length = (getPhotosByIssue st i.id).length ∧
        (getPhotosByIssue st' i.id).map (fun p => (p.blob, p.thumbnailBlob))
          = (getPhotosByIssue st i.id).map (fun p => (p.blob, p.thumbnailBlob)) ∧
        (getPhotosByIssue st' i.id).map PhotoRef.id = i.photos) := by
  obtain ⟨hall, hidnd, hpnd, hpids⟩ := hwf
  obtain ⟨hnd, hrel, hsorted, hordnd, hordiff⟩ :=
    generateZipBlob_spec st st.issues rooms assignees date
  have he := generateZipBlob_issues_arr st st.issues rooms assignees date
  clear hsorted
  generalize hE : generateZipBlob st st.issues rooms assignees date = E
    at hnd hrel hordnd hordiff he ⊢
  have hperm := flatMap_filter_perm Issue.roomSlug E.roomOrder st.issues
    hordnd hordiff
  have hZr : (clearAllData st0).roomsKV ≠ some none := by simp [clearAllData]
  obtain ⟨st2, n2, hrooms⟩ :=
    importRooms_ok_exists (clearAllData st0) E.manifest .replace hZr
  obtain ⟨hi2, hp2, hak2, _, _⟩ :=
    importRooms_ok_inv (clearAllData st0) E.manifest .replace st2 n2 hrooms
  have hZa : st2.assigneesKV ≠ some none := by
    rw [hak2]
    simp [clearAllData]
  obtain ⟨st3, n3, hassign⟩ :=
    importAssignees_ok_exists st2 E.manifest .replace hZa
  obtain ⟨hi3, hp3, _, _, _⟩ :=
    importAssignees_ok_inv st2 E.manifest .replace st3 n3 hassign
  have hi30 : st3.issues = [] := by
    rw [hi3, hi2]
    rfl
  have hp30 : st3.photos = [] := by
    rw [hp3, hp2]
    rfl
  have hIN : ((E.roomOrder.flatMap
      (fun s => st.issues.filter (fun i => decide (i.roomSlug = s)))).map
        Issue.id).Nodup := (hperm.map Issue.id).nodup_iff.mpr hidnd
  have hside : ∀ i ∈ E.roomOrder.flatMap
      (fun s => st.issues.filter (fun i => decide (i.roomSlug = s))),
      i.id ≠ "" ∧ i.roomSlug ≠ "" ∧ i.title ≠ "" ∧
      i.code ≠ some "" ∧ i.assigneeSlug ≠ some "" ∧
      i.photos = (getPhotosByIssue st i.id).map PhotoRef.id ∧
      ∀ p ∈ getPhotosByIssue st i.id, p.id ≠ "" := by
    intro i hi
    obtain ⟨c1, c2, c3, c4, c5, c6⟩ := hall i (hperm.mem_iff.mp hi)
    exact ⟨c1, c2, c3, c4, c5, c6,
      fun p hp => hpids p (List.mem_of_mem_filter hp)⟩
  have hPN : ((E.roomOrder.flatMap
      (fun s => st.issues.filter (fun i => decide (i.roomSlug = s)))).flatMap
        (fun i => (getPhotosByIssue st i.id).map PhotoRef.id)).Nodup := by
    rw [map_id_flatMap_chunks]
    exact subperm_nodup
      (subperm_map PhotoRef.id
        (flatMap_filter_subperm PhotoRef.issueId _ st.photos hIN))
      hpnd
  obtain ⟨g1, g2, g3, g4⟩ := importEntriesFold_round
    { manifest := some E.manifest, files := E.files } now st hnd hrel
    { st := st3, issueCount := 0, photoCount := 0 }
    hside
    (by
      intro i hi
      dsimp only
      rw [hi30]
      simp)
    hIN
    (by
      intro i hi p hp
      dsimp only
      rw [hp30]
      simp)
    hPN
  refine ⟨{ issueCount := (E.manifest.issueList.foldl
              (importIssueEntry { manifest := some E.manifest, files := E.files } now)
              { st := st3, issueCount := 0, photoCount := 0 }).issueCount,
            photoCount := (E.manifest.issueList.foldl
              (importIssueEntry { manifest := some E.manifest, files := E.files } now)
              { st := st3, issueCount := 0, photoCount := 0 }).photoCount,
            roomCount := n2, assigneeCount := n3 },
    (E.manifest.issueList.foldl
        (importIssueEntry { manifest := some E.manifest, files := E.files } now)
        { st := st3, issueCount := 0, photoCount := 0 }).st,
    ?_, ?_, ?_, ?_⟩
  · rw [importZip.eq_def]
    dsimp only
    rw [he]
    dsimp only
    rw [hrooms]
    dsimp only
    rw [hassign]
  · rw [g1]
    dsimp only
    rw [hi30, List.nil_append, List.length_map]
    exact hperm.length_eq
  · rw [g3]
    dsimp only
    rw [Nat.zero_add]
    exact hperm.length_eq
  · intro i hi
    have hio : i ∈ E.roomOrder.flatMap
        (fun s => st.issues.filter (fun i => decide (i.roomSlug = s))) :=
      hperm.mem_iff.mpr hi
    have hgp : getPhotosByIssue (E.manifest.issueList.foldl
        (importIssueEntry { manifest := some E.manifest, files := E.files } now)
        { st := st3, issueCount := 0, photoCount := 0 }).st i.id
          = (getPhotosByIssue st i.id).map reimportedPhoto := by
      rw [getPhotosByIssue, g2]
      dsimp only
      rw [hp30, List.nil_append]
      exact filter_flatMap_chunks st _ hIN i hio
    refine ⟨?_, hgp, ?_, ?_, ?_⟩
    · rw [getIssue, g1]
      dsimp only
      rw [hi30, List.nil_append]
      exact find_map_of_nodup reimportedIssue (fun x => rfl) _ hIN i hio
    · rw [hgp, List.length_map]
    · rw [hgp, List.map_map]
      apply List.map_congr_left
      intro p _
      rfl
    · rw [hgp, map_id_reimported]
      exact ((hall i hi).2.2.2.2.2).symm
/-- **C1** counterexample: the issue `exRTIssue` has `type = none`; after
a lossless-claimed round trip through export and replace-mode import, its
stored `type` is `some .reserve`, so the restored snapshot is not
field-identical. -/
theorem C1_counterexample :
    exRTIssue.type = none ∧
    ∃ st', importZip Store.empty exRTArchive .replace 0
        = .ok ({ issueCount := 1, photoCount := 0, roomCount := 0,
                 assigneeCount := 0 }, st') ∧
      getIssue st' "i1" = some { exRTIssue with type := some .reserve } :=
  ⟨rfl, _, rfl, rfl⟩

/-- Witness for **C1**: the one-issue snapshot `exRTStore` satisfies the
invariants and round-trips as described. -/
theorem C1_witness :
    ∃ c st', importZip Store.empty
        { manifest := some (generateZipBlob exRTStore exRTStore.issues [] [] ⟨0⟩).manifest,
          files := (generateZipBlob exRTStore exRTStore.issues [] [] ⟨0⟩).files }
        .replace 0 = .ok (c, st') ∧
      st'.issues.length = exRTStore.issues.length ∧
      c.issueCount = exRTStore.issues.length ∧
      (∀ i ∈ exRTStore.issues,
        getIssue st' i.id = some (reimportedIssue i) ∧
        getPhotosByIssue st' i.id
          = (getPhotosByIssue exRTStore i.id).map reimportedPhoto ∧
        (getPhotosByIssue st' i.id).length
          = (getPhotosByIssue exRTStore i.id).length ∧
        (getPhotosByIssue st' i.id).map (fun p => (p.blob, p.thumbnailBlob))
          = (getPhotosByIssue exRTStore i.id).map
              (fun p => (p.blob, p.thumbnailBlob)) ∧
        (getPhotosByIssue st' i.id).map PhotoRef.id = i.photos) :=
  C1_round_trip exRTStore Store.empty [] [] ⟨0⟩ 0
    (by rw [WellFormedSnapshot]; decide)

end Pasfini
